import Mathlib

/-!
Verification of the record-enrichment and AI-response extraction pipeline of
the ITSM service-desk dashboard.

The development shallowly embeds the relevant Python functions:

* `cleanData` / `cleanResponse` — the markdown-fence cleanup applied to model
  responses in `DataIngestManager._generate_ai_batch`
  (`src/utils/data_ingest.py`);
* `jsonLoads` — a model of Python's `json.loads` (strict JSON, with numbers
  kept as their source numerals);
* `processAiIncident` — `DataIngestManager._process_ai_incident`;
* `generateAiBatch` — the parse/validate portion of
  `DataIngestManager._generate_ai_batch`;
* `enrichIncidents` — the category/service left-join enrichment of
  `DataIngestManager._clean_incidents_data`;
* `getWorkload` — `DataService.get_workload` (`src/utils/data_service.py`);
* `updateIncidentAssignment` — `DataService.update_incident_assignment`;
* `classifyExtract` / `kbExtract` — the label-based response parsing in
  `BedrockClient.classify_incident_priority` and
  `BedrockClient.generate_kb_article` (`src/utils/bedrock_client.py`).

Sources of nondeterminism in the Python code (`random.*`, `datetime.utcnow`)
are passed in explicitly through a `GenEnv` environment.
-/

namespace Itsm

/-! ### Python string helpers -/

/-- The whitespace set of Python's `str.strip` and of the regex class `\s`. -/
def pyWs (c : Char) : Bool :=
  c = ' ' || c = '\t' || c = '\n' || c = '\r' || c = '\x0b' || c = '\x0c'

/-- Remove trailing Python whitespace. -/
def stripEndL (l : List Char) : List Char :=
  (l.reverse.dropWhile pyWs).reverse

/-- Python `str.strip`: remove leading and trailing whitespace. -/
def stripL (l : List Char) : List Char :=
  stripEndL (l.dropWhile pyWs)

/-- The characters of the opening marker `"```json"`. -/
def fenceJson : List Char := "```json".data

/-- The characters of the bare fence marker. -/
def fence3 : List Char := "```".data

/-- Python `str.startswith` on character lists. -/
def hasPrefixL (p l : List Char) : Bool := p.isPrefixOf l

/-- Python `str.endswith` on character lists. -/
def hasSuffixL (p l : List Char) : Bool := p.reverse.isPrefixOf l.reverse

/-- The fence-stripping cleanup of `_generate_ai_batch`
(`src/utils/data_ingest.py`, lines 533-542): strip surrounding whitespace,
remove a leading `"```json"` marker (with following whitespace), remove a
leading bare fence likewise, and remove one trailing fence (with preceding
whitespace).  Each `re.sub` is anchored, applied once, and guarded by the
corresponding `startswith` / `endswith` test. -/
def cleanData (r : List Char) : List Char :=
  let c0 := stripL r
  let c1 := if hasPrefixL fenceJson c0 then (c0.drop 7).dropWhile pyWs else c0
  let c2 := if hasPrefixL fence3 c1 then (c1.drop 3).dropWhile pyWs else c1
  if hasSuffixL fence3 c2 then ((c2.reverse.drop 3).dropWhile pyWs).reverse else c2

/-- String-level wrapper for `cleanData`. -/
def cleanResponse (s : String) : String := ⟨cleanData s.data⟩

/-! ### JSON values and a model of `json.loads` -/

/-- JSON values.  Numbers are kept as their validated source numeral, so that
integer and floating literals are represented without floating-point
arithmetic. -/
inductive Json where
  | null
  | bool (b : Bool)
  | num (raw : String)
  | str (s : String)
  | arr (elems : List Json)
  | obj (fields : List (String × Json))
  deriving Inhabited

/-- Structural equality of JSON values. -/
def jeq : Json → Json → Bool
  | .null, .null => true
  | .bool a, .bool b => a = b
  | .num a, .num b => a = b
  | .str a, .str b => a = b
  | .arr a, .arr b => jeqList a b
  | .obj a, .obj b => jeqFields a b
  | _, _ => false
where
  jeqList : List Json → List Json → Bool
    | [], [] => true
    | a :: as, b :: bs => jeq a b && jeqList as bs
    | _, _ => false
  jeqFields : List (String × Json) → List (String × Json) → Bool
    | [], [] => true
    | (k, a) :: as, (k', b) :: bs => k = k' && jeq a b && jeqFields as bs
    | _, _ => false

/-- Whitespace accepted between JSON tokens. -/
def jsonWs (c : Char) : Bool :=
  c = ' ' || c = '\t' || c = '\n' || c = '\r'

/-- Skip JSON inter-token whitespace. -/
def jsonSkip (cs : List Char) : List Char := cs.dropWhile jsonWs

/-- Value of a hexadecimal digit. -/
def hexVal (c : Char) : Option Nat :=
  if '0' ≤ c ∧ c ≤ '9' then some (c.toNat - '0'.toNat)
  else if 'a' ≤ c ∧ c ≤ 'f' then some (c.toNat - 'a'.toNat + 10)
  else if 'A' ≤ c ∧ c ≤ 'F' then some (c.toNat - 'A'.toNat + 10)
  else none

/-- Parse the body of a JSON string literal (after the opening quote),
accumulating decoded characters.  Unescaped control characters are rejected,
matching `json.loads` in strict mode. -/
def parseStr : Nat → List Char → List Char → Option (String × List Char)
  | 0, _, _ => none
  | _ + 1, [], _ => none
  | fuel + 1, c :: r, acc =>
    if c = '"' then some (⟨acc.reverse⟩, r)
    else if c = '\\' then
      match r with
      | [] => none
      | e :: r' =>
        if e = '"' then parseStr fuel r' ('"' :: acc)
        else if e = '\\' then parseStr fuel r' ('\\' :: acc)
        else if e = '/' then parseStr fuel r' ('/' :: acc)
        else if e = 'b' then parseStr fuel r' ('\x08' :: acc)
        else if e = 'f' then parseStr fuel r' ('\x0c' :: acc)
        else if e = 'n' then parseStr fuel r' ('\n' :: acc)
        else if e = 'r' then parseStr fuel r' ('\r' :: acc)
        else if e = 't' then parseStr fuel r' ('\t' :: acc)
        else if e = 'u' then
          match r' with
          | a :: b :: c3 :: d :: rr =>
            match hexVal a, hexVal b, hexVal c3, hexVal d with
            | some x, some y, some z, some w =>
              parseStr fuel rr (Char.ofNat (((x * 16 + y) * 16 + z) * 16 + w) :: acc)
            | _, _, _, _ => none
          | _ => none
        else none
    else if c.toNat < 32 then none
    else parseStr fuel r (c :: acc)

/-- Split a leading run of decimal digits. -/
def digitsOf (cs : List Char) : List Char × List Char :=
  (cs.takeWhile Char.isDigit, cs.dropWhile Char.isDigit)

/-- Parse an optional fraction part `.digits`. -/
def parseFrac : List Char → Option (List Char × List Char)
  | '.' :: r =>
    let (ds, rr) := digitsOf r
    if ds.isEmpty then none else some ('.' :: ds, rr)
  | cs => some ([], cs)

/-- Parse an optional exponent part `[eE][+-]?digits`. -/
def parseExp (cs : List Char) : Option (List Char × List Char) :=
  match cs with
  | c :: r =>
    if c = 'e' ∨ c = 'E' then
      let (sg, r1) := match r with
        | '+' :: rr => (['+'], rr)
        | '-' :: rr => (['-'], rr)
        | _ => (([] : List Char), r)
      let (ds, rr) := digitsOf r1
      if ds.isEmpty then none else some (c :: (sg ++ ds), rr)
    else some ([], cs)
  | [] => some ([], [])

/-- Parse a JSON number `-?(0|[1-9]digits)(.digits)?([eE][+-]?digits)?`,
keeping the numeral text. -/
def parseNum (cs : List Char) : Option (Json × List Char) :=
  let (sgn, cs1) : List Char × List Char :=
    match cs with
    | '-' :: r => (['-'], r)
    | _ => ([], cs)
  match cs1 with
  | [] => none
  | d :: _ =>
    if ¬ d.isDigit then none
    else
      let (ip, r1) := digitsOf cs1
      if d = '0' ∧ 1 < ip.length then none
      else
        match parseFrac r1 with
        | none => none
        | some (fp, r2) =>
          match parseExp r2 with
          | none => none
          | some (ep, r3) => some (.num ⟨sgn ++ ip ++ fp ++ ep⟩, r3)

/-- Insert a key/value pair into an object under construction, replacing an
earlier binding of the same key in place — the behaviour of Python `dict`
insertion, which `json.loads` uses for duplicate keys. -/
def insertField (fields : List (String × Json)) (k : String) (v : Json) :
    List (String × Json) :=
  if fields.any (fun p => p.1 = k) then
    fields.map (fun p => if p.1 = k then (k, v) else p)
  else fields ++ [(k, v)]

mutual

/-- Parse one JSON value at the head of the input. -/
def parseVal : Nat → List Char → Option (Json × List Char)
  | 0, _ => none
  | _ + 1, [] => none
  | fuel + 1, c :: rest =>
    if c = 'n' then
      if hasPrefixL "ull".data rest then some (.null, rest.drop 3) else none
    else if c = 't' then
      if hasPrefixL "rue".data rest then some (.bool true, rest.drop 3) else none
    else if c = 'f' then
      if hasPrefixL "alse".data rest then some (.bool false, rest.drop 4) else none
    else if c = '"' then
      match parseStr fuel rest [] with
      | some (s, r) => some (.str s, r)
      | none => none
    else if c = '[' then parseArrRest fuel (jsonSkip rest) [] true
    else if c = '\x7b' then parseObjRest fuel (jsonSkip rest) [] true
    else parseNum (c :: rest)

/-- Parse the remainder of a JSON array after `[` (whitespace skipped).
`acc` holds the elements parsed so far, reversed; `first` is true before the
first element. -/
def parseArrRest : Nat → List Char → List Json → Bool → Option (Json × List Char)
  | 0, _, _, _ => none
  | fuel + 1, cs, acc, first =>
    match cs with
    | ']' :: r =>
      if first then some (.arr [], r)
      else none
    | _ =>
      match parseVal fuel cs with
      | none => none
      | some (v, r) =>
        match jsonSkip r with
        | ',' :: rr => parseArrRest fuel (jsonSkip rr) (v :: acc) false
        | ']' :: rr => some (.arr (v :: acc).reverse, rr)
        | _ => none

/-- Parse the remainder of a JSON object after the opening brace (whitespace
skipped). -/
def parseObjRest : Nat → List Char → List (String × Json) → Bool →
    Option (Json × List Char)
  | 0, _, _, _ => none
  | fuel + 1, cs, acc, first =>
    match cs with
    | '\x7d' :: r =>
      if first then some (.obj [], r)
      else none
    | '"' :: r =>
      match parseStr fuel r [] with
      | none => none
      | some (k, r1) =>
        match jsonSkip r1 with
        | ':' :: r2 =>
          match parseVal fuel (jsonSkip r2) with
          | none => none
          | some (v, r3) =>
            match jsonSkip r3 with
            | ',' :: rr => parseObjRest fuel (jsonSkip rr) (insertField acc k v) false
            | '\x7d' :: rr => some (.obj (insertField acc k v), rr)
            | _ => none
        | _ => none
    | _ => none

end

/-- Model of Python `json.loads`: parse a complete JSON document; trailing
non-whitespace is an error. -/
def jsonLoads (s : String) : Option Json :=
  match parseVal (s.data.length + 1) (jsonSkip s.data) with
  | some (v, rest) => if (jsonSkip rest).isEmpty then some v else none
  | none => none

/-- Whether a parsed value is a Python `list`. -/
def Json.isArr : Json → Bool
  | .arr _ => true
  | _ => false

/-- Python `type(...)` rendering used in the non-list error message. -/
def Json.pyTypeName : Json → String
  | .null => "<class \x27NoneType\x27>"
  | .bool _ => "<class \x27bool\x27>"
  | .num raw => if raw.data.any (fun c => c = '.' ∨ c = 'e' ∨ c = 'E')
      then "<class \x27float\x27>" else "<class \x27int\x27>"
  | .str _ => "<class \x27str\x27>"
  | .arr _ => "<class \x27list\x27>"
  | .obj _ => "<class \x27dict\x27>"

/-- Whether a JSON numeral denotes a nonzero number (its mantissa has a
nonzero digit). -/
def numTruthy (raw : String) : Bool :=
  (raw.data.takeWhile (fun c => c ≠ 'e' ∧ c ≠ 'E')).any
    (fun c => c.isDigit ∧ c ≠ '0')

/-- Python truthiness of a JSON-decoded value. -/
def Json.truthy : Json → Bool
  | .null => false
  | .bool b => b
  | .num raw => numTruthy raw
  | .str s => s ≠ ""
  | .arr l => ¬ l.isEmpty
  | .obj l => ¬ l.isEmpty

/-! ### The generated-record validator/defaulter (`_process_ai_incident`) -/

/-- The fixed allowed resolution codes
(`src/utils/data_ingest.py`, line 617). -/
def resolutionCodes : List String := ["Fixed", "Workaround", "User Error", "Duplicate"]

/-- The unresolved status set (`src/utils/data_ingest.py`, lines 630-631). -/
def unresolvedStatuses : List String := ["Open", "In Progress", "Assigned"]

/-- Explicit record of the nondeterministic inputs consumed by
`_process_ai_incident` for one incident: the clock reading and the draws of
`random.choice`, `random.randint` and `random.random`. -/
structure GenEnv where
  /-- `int(datetime.utcnow().timestamp())`. -/
  nowTs : Nat
  /-- Rendering of `datetime.utcnow()` stored in `_ingested_at`. -/
  ingestedAt : String
  /-- Draw of `random.choice([...])` for a missing resolution code. -/
  randCode : Fin resolutionCodes.length
  /-- Draw of `_generate_past_datetime(30)` for a missing `resolved_on`. -/
  randResolvedOn : String
  /-- Draw of `_generate_past_datetime(30)` for a missing `created_on`. -/
  randCreatedOn : String
  /-- Draw of `_generate_future_datetime(24)` for a missing `sla_due`. -/
  randSlaDue : String
  /-- Draw of `random.randint(1001, 1999)` for a missing `customer_id`. -/
  randCustomerNum : Nat
  /-- Draw of `random.randint(1, 10)` for a synthesized agent id. -/
  randAgentNum : Nat
  /-- Draw of `random.choice([...])` for an out-of-set unresolved status. -/
  randStatus : Fin unresolvedStatuses.length
  /-- Whether `random.random() < 0.3` (leave the incident unassigned). -/
  unassignRoll : Bool

/-- A fixed environment, used to instantiate theorems at concrete inputs. -/
def defaultEnv : GenEnv where
  nowTs := 0
  ingestedAt := "2026-01-01 00:00:00"
  randCode := ⟨0, by decide⟩
  randResolvedOn := "2026-01-01 01:00:00"
  randCreatedOn := "2026-01-01 02:00:00"
  randSlaDue := "2026-01-02 00:00:00"
  randCustomerNum := 1500
  randAgentNum := 5
  randStatus := ⟨0, by decide⟩
  unassignRoll := false

/-- Python `f"...{n:0wd}"`: decimal rendering left-padded with zeros. -/
def padNum (w n : Nat) : String :=
  let s := toString n
  ⟨List.replicate (w - s.length) '0' ++ s.data⟩

/-- Python `incident_data.get(k, d)` on a decoded JSON object. -/
def jget (fields : List (String × Json)) (k : String) (d : Json) : Json :=
  (fields.lookup k).getD d

/-- The fully-typed incident record built by `_process_ai_incident`.  Field
values keep the loose typing of the decoded JSON. -/
structure IncidentRecord where
  incidentId : String
  title : Json
  description : Json
  priority : Json
  status : Json
  category : Json
  service : Json
  urgency : Json
  impact : Json
  location : Json
  channel : Json
  assignedTo : Json
  createdOn : Json
  slaDue : Json
  customerId : Json
  resolutionCode : Json
  resolvedOn : Json
  resolutionNotes : Json
  ingestedAt : String
  sourceTag : String
  deriving Inhabited

/-- Whether a loosely-typed status value lies in the unresolved status set
(Python `record['status'] not in ['Open', 'In Progress', 'Assigned']`,
negated; a non-string value never equals a string). -/
def isUnresolvedStatus : Json → Bool
  | .str s => unresolvedStatuses.contains s
  | _ => false

/-- `DataIngestManager._process_ai_incident`
(`src/utils/data_ingest.py`, lines 579-642).  Returns `none` when the Python
code would swallow an exception and return `None`: the element is not a
`dict` (every `.get` call raises), or its `incident_id` value is not a
string (`.startswith` raises). -/
def processAiIncident (incident : Json) (index : Nat) (statusType : String)
    (env : GenEnv) : Option IncidentRecord :=
  match incident with
  | .obj fields =>
    let baseId := 1000 + env.nowTs % 10000 + index
    let defaultId := "INC" ++ padNum 4 baseId
    match jget fields "incident_id" (.str defaultId) with
    | .str rawId =>
      let incidentId := if hasPrefixL "INC".data rawId.data then rawId else defaultId
      let record : IncidentRecord := {
        incidentId := incidentId
        title := jget fields "title" (.str "IT Support Request")
        description := jget fields "description" (.str "User requires technical assistance")
        priority := jget fields "priority" (.str "P3")
        status := jget fields "status" (.str "Open")
        category := jget fields "category" (.str "Password Reset")
        service := jget fields "service" (.str "Workplace Technology")
        urgency := jget fields "urgency" (.str "Medium")
        impact := jget fields "impact" (.str "Medium")
        location := jget fields "location" (.str "Sydney")
        channel := jget fields "channel" (.str "Email")
        assignedTo := jget fields "assigned_to" (.str "")
        createdOn := jget fields "created_on" (.str env.randCreatedOn)
        slaDue := jget fields "sla_due" (.str env.randSlaDue)
        customerId := jget fields "customer_id" (.str ("USR" ++ toString env.randCustomerNum))
        resolutionCode := jget fields "resolution_code" (.str "")
        resolvedOn := jget fields "resolved_on" (.str "")
        resolutionNotes := jget fields "resolution_notes" (.str "")
        ingestedAt := env.ingestedAt
        sourceTag := "ai_generated" }
      if statusType = "resolved" then
        let record := { record with
          resolutionCode :=
            if record.resolutionCode.truthy then record.resolutionCode
            else .str (resolutionCodes.get env.randCode)
          resolvedOn :=
            if record.resolvedOn.truthy then record.resolvedOn
            else .str env.randResolvedOn
          resolutionNotes :=
            if record.resolutionNotes.truthy then record.resolutionNotes
            else .str "Issue resolved successfully"
          assignedTo :=
            if record.assignedTo.truthy then record.assignedTo
            else .str ("AGT" ++ padNum 3 env.randAgentNum)
          status := .str "Resolved" }
        some record
      else
        let status1 :=
          if isUnresolvedStatus record.status then record.status
          else .str (unresolvedStatuses.get env.randStatus)
        let assigned1 :=
          if env.unassignRoll then Json.str ""
          else if ¬ record.assignedTo.truthy then
            Json.str ("AGT" ++ padNum 3 env.randAgentNum)
          else record.assignedTo
        some { record with
          resolutionCode := .str ""
          resolvedOn := .str ""
          resolutionNotes := .str ""
          status := status1
          assignedTo := assigned1 }
    | _ => none
  | _ => none

/-! ### The JSON-array extraction (`_generate_ai_batch`) -/

/-- The outer `except Exception` wrapper of `_generate_ai_batch`
(`src/utils/data_ingest.py`, lines 574-577). -/
def wrapErr (m : String) : String := "Error in AI batch generation: " ++ m

/-- Python `s[:200]`. -/
def take200 (s : String) : String := ⟨s.data.take 200⟩

/-- Process every decoded array element through `_process_ai_incident`,
dropping the elements for which it returns `None`
(`src/utils/data_ingest.py`, lines 556-565). -/
def processItems (items : List Json) (statusType : String)
    (envs : Nat → GenEnv) : List IncidentRecord :=
  items.enum.filterMap fun p => processAiIncident p.2 p.1 statusType (envs p.1)

/-- The response-handling portion of `DataIngestManager._generate_ai_batch`
(`src/utils/data_ingest.py`, lines 510-577): reject an empty response, strip
markdown fences, parse JSON, reject non-list results, and validate each
element.  Each `raise` is modelled as an `Except.error` carrying the message
of the exception that escapes the function (the message of the
`json.JSONDecodeError` itself is abbreviated to its leading phrase). -/
def generateAiBatch (response : String) (statusType : String)
    (envs : Nat → GenEnv) : Except String (List IncidentRecord) :=
  if response = "" then .error (wrapErr "No response from Bedrock")
  else
    let cleaned := cleanResponse response
    match jsonLoads cleaned with
    | none => .error (wrapErr ("Failed to parse JSON response: Expecting value. Cleaned response preview: " ++ take200 cleaned ++ "..."))
    | some v =>
      match v with
      | .arr items => .ok (processItems items statusType envs)
      | _ => .error (wrapErr ("Response is not a JSON array, got: " ++ v.pyTypeName))

/-! ### Tabular frames and the enrichment joins (`_clean_incidents_data`) -/

/-- A cell of a tabular frame: either the pandas missing-value marker `NaN`
or a present value. -/
inductive Cell where
  | na
  | val (s : String)
  deriving DecidableEq, Inhabited

/-- A row, as an association list from column name to cell. -/
abbrev Row := List (String × Cell)

/-- A tabular frame: ordered column names plus rows. -/
structure Df where
  cols : List String
  rows : List Row
  deriving DecidableEq, Inhabited

/-- Look a column up in a row. -/
def rowGet (row : Row) (c : String) : Option Cell := row.lookup c

/-- The rows of every well-formed frame list exactly its columns, in order. -/
def Df.Wf (df : Df) : Prop := ∀ r ∈ df.rows, r.map Prod.fst = df.cols

/-- pandas suffixing of column names that occur on both sides of a merge. -/
def sufxd (overlap : List String) (suf c : String) : String :=
  if overlap.contains c then c ++ suf else c

/-- `left.merge(right, on=key, how="left")`: for each left row take every
right row with an equal key value (fan-out on duplicates), or a single
all-`NaN` extension when there is no match; non-key columns occurring on both
sides are renamed with the pandas `_x`/`_y` suffixes. -/
def mergeLeft (left right : Df) (key : String) : Df :=
  let rightData := right.cols.filter (fun c => c ≠ key)
  let overlap := (left.cols.filter (fun c => c ≠ key)).filter
    (fun c => rightData.contains c)
  { cols := left.cols.map (fun c => if c = key then c else sufxd overlap "_x" c) ++
      rightData.map (sufxd overlap "_y")
    rows := left.rows.flatMap fun lrow =>
      let lrow' := lrow.map
        (fun p => (if p.1 = key then p.1 else sufxd overlap "_x" p.1, p.2))
      match right.rows.filter (fun rrow => rowGet rrow key = rowGet lrow key) with
      | [] => [lrow' ++ rightData.map (fun c => (sufxd overlap "_y" c, Cell.na))]
      | ms => ms.map fun rrow =>
          lrow' ++ rightData.map
            (fun c => (sufxd overlap "_y" c, (rowGet rrow c).getD Cell.na)) }

/-- pandas column selection `df[cols]` (the caller guards that all columns
exist; on a missing column the selection raises and the enrichment step is
skipped). -/
def project (df : Df) (cs : List String) : Df :=
  { cols := cs
    rows := df.rows.map fun r => cs.map fun c => (c, (rowGet r c).getD Cell.na) }

/-- pandas `df.rename(columns={src: dst})`. -/
def renameCol (df : Df) (src dst : String) : Df :=
  { cols := df.cols.map fun c => if c = src then dst else c
    rows := df.rows.map fun r => r.map fun p => (if p.1 = src then dst else p.1, p.2) }

/-- `category_cols` of `_clean_incidents_data`: key, `name`, and `path`
when the categories table has it (`src/utils/data_ingest.py`,
lines 209-211). -/
def catColsSel (cdf : Df) : List String :=
  ["category_id", "name"] ++ (if "path" ∈ cdf.cols then ["path"] else [])

/-- The right side of the category merge:
`categories_df[category_cols].rename(columns={'name': 'category_name'})`. -/
def catRight (cdf : Df) : Df :=
  renameCol (project cdf (catColsSel cdf)) "name" "category_name"

/-- `service_cols` of `_clean_incidents_data`
(`src/utils/data_ingest.py`, lines 231-233). -/
def svcColsSel (sdf : Df) : List String :=
  ["service_id", "name"] ++ (if "criticality" ∈ sdf.cols then ["criticality"] else [])

/-- The right side of the service merge:
`services_df[service_cols].rename(columns={'name': 'service_name'})`. -/
def svcRight (sdf : Df) : Df :=
  renameCol (project sdf (svcColsSel sdf)) "name" "service_name"

/-- The category-enrichment step of `_clean_incidents_data`
(`src/utils/data_ingest.py`, lines 200-220): when a categories table is
available and both sides carry `category_id`, left-join the projected,
renamed name (and `path` when present) columns; any failure inside the
`try` block (such as a missing `name` column, which makes the column
selection raise) leaves the frame unchanged. -/
def enrichWithCategories (df : Df) (cats : Option Df) : Df :=
  match cats with
  | none => df
  | some cdf =>
    if "category_id" ∈ df.cols ∧ "category_id" ∈ cdf.cols then
      if (catColsSel cdf).all (fun c => cdf.cols.contains c) then
        mergeLeft df (catRight cdf) "category_id"
      else df
    else df

/-- The service-enrichment step of `_clean_incidents_data`
(`src/utils/data_ingest.py`, lines 222-242), analogous to the category
step with key `service_id` and columns `service_name`/`criticality`. -/
def enrichWithServices (df : Df) (svcs : Option Df) : Df :=
  match svcs with
  | none => df
  | some sdf =>
    if "service_id" ∈ df.cols ∧ "service_id" ∈ sdf.cols then
      if (svcColsSel sdf).all (fun c => sdf.cols.contains c) then
        mergeLeft df (svcRight sdf) "service_id"
      else df
    else df

/-- The enrichment portion of `_clean_incidents_data`: category join then
service join.  The reference tables are `none` when the corresponding CSV
file is absent. -/
def enrichIncidents (df : Df) (cats svcs : Option Df) : Df :=
  enrichWithServices (enrichWithCategories df cats) svcs

/-- Remove the given columns from a frame. -/
def dropCols (df : Df) (cs : List String) : Df :=
  { cols := df.cols.filter fun c => !(cs.contains c)
    rows := df.rows.map fun r => r.filter fun p => !(cs.contains p.1) }

/-- The columns of `out` that `base` does not have. -/
def addedCols (base out : Df) : List String :=
  out.cols.filter fun c => !(base.cols.contains c)

/-- A frame column as the list of its per-row values. -/
def getCol (df : Df) (c : String) : List (Option Cell) :=
  df.rows.map fun r => rowGet r c

/-- At most one row per key value — the one-row-per-key reading of a
reference table. -/
def OneRowPerKey (df : Df) (key : String) : Prop :=
  ∀ v, (df.rows.filter fun r => rowGet r key = v).length ≤ 1

/-- The non-key columns a merge copies from its right side. -/
def rightDataOf (right : Df) (key : String) : List String :=
  right.cols.filter (fun c => c ≠ key)

/-- The columns a left join appends to one left row: the matching right
row's projected values, or all-`NaN` when there is no match. -/
def refExtra (right : Df) (key : String) (r : Row) : Row :=
  match right.rows.filter (fun rrow => rowGet rrow key = rowGet r key) with
  | [] => (rightDataOf right key).map (fun c => (c, Cell.na))
  | rrow :: _ =>
    (rightDataOf right key).map (fun c => (c, (rowGet rrow c).getD Cell.na))

/-- A frame extended columnwise: each row grows by a row-dependent suffix
over a fixed list of new columns. -/
def extendDf (df : Df) (ec : List String) (f : Row → Row) : Df :=
  { cols := df.cols ++ ec, rows := df.rows.map fun r => r ++ f r }

/-! ### The workload queue (`DataService.get_workload`) -/

/-- Keys of a list of documents, in first-occurrence order — the column
order of `pd.DataFrame(list_of_dicts)`. -/
def unionKeys (docs : List Row) : List String :=
  docs.foldl
    (fun acc r => acc ++ (r.map Prod.fst).filter (fun c => !(acc.contains c))) []

/-- Remove the given keys from a document (a MongoDB projection that
excludes those fields). -/
def dropKeys (ks : List String) (r : Row) : Row :=
  r.filter fun p => !(ks.contains p.1)

/-- `pd.DataFrame(docs)`: columns are the union of the document keys and
every row is aligned to them, `NaN` where a key is missing. -/
def pdFrame (docs : List Row) : Df :=
  let cs := unionKeys docs
  { cols := cs
    rows := docs.map fun d => cs.map fun c => (c, (rowGet d c).getD Cell.na) }

/-- Boolean row filter (`df[mask]`). -/
def dfFilter (df : Df) (p : Row → Bool) : Df :=
  { cols := df.cols, rows := df.rows.filter p }

/-- `df['status'].isin(['Open', 'In Progress', 'Assigned'])` on one row. -/
def statusUnresolved (r : Row) : Bool :=
  match rowGet r "status" with
  | some (.val s) => unresolvedStatuses.contains s
  | _ => false

/-- `df['assigned_to'].isna() | (df['assigned_to'] == '')` on one row. -/
def assignedEmpty (r : Row) : Bool :=
  rowGet r "assigned_to" = some Cell.na ∨ rowGet r "assigned_to" = some (Cell.val "")

/-- `if limit and len(df) > limit: df = df.head(limit)`
(`src/utils/data_service.py`, lines 121-122); a `0` limit is falsy. -/
def pyHead (limit : Option Nat) (df : Df) : Df :=
  match limit with
  | some n =>
    if n ≠ 0 ∧ n < df.rows.length then { cols := df.cols, rows := df.rows.take n }
    else df
  | none => df

/-- The incident documents as fetched by
`DataIngestManager.get_incidents` (projection away of the ingestion
metadata fields). -/
def wlDocs (incidents : List Row) : List Row :=
  incidents.map (dropKeys ["_ingested_at", "_source"])

/-- The frame that `get_workload` builds before filtering: `pd.DataFrame`
over the fetched documents with the MongoDB `_id` column dropped when
present. -/
def wlFrame (incidents : List Row) : Df :=
  let df0 := pdFrame (wlDocs incidents)
  if "_id" ∈ df0.cols then dropCols df0 ["_id"] else df0

/-- `DataService.get_workload` (`src/utils/data_service.py`, lines 97-135):
fetch all incidents, drop `_id`, filter for unresolved statuses (when a
`status` column exists), further filter for unassigned incidents (when an
`assigned_to` column exists), then apply the caller's limit. -/
def getWorkload (incidents : List Row) (limit : Option Nat) : Df :=
  if incidents.isEmpty then { cols := [], rows := [] }
  else
    let df1 := wlFrame incidents
    let df2 :=
      if "status" ∈ df1.cols then
        let dfa := dfFilter df1 statusUnresolved
        if "assigned_to" ∈ df1.cols then dfFilter dfa assignedEmpty else dfa
      else df1
    pyHead limit df2

/-! ### Assignment update (`DataService.update_incident_assignment`) -/

/-- MongoDB `$set` of one field: replace the binding in place, or append a
new field at the end of the document. -/
def setField (doc : Row) (k : String) (v : Cell) : Row :=
  if doc.any (fun p => p.1 = k) then
    doc.map fun p => if p.1 = k then (k, v) else p
  else doc ++ [(k, v)]

/-- Apply a `$set` document field by field. -/
def applySet (doc : Row) (upd : List (String × Cell)) : Row :=
  upd.foldl (fun d p => setField d p.1 p.2) doc

/-- The filter used by both `find_one` and `update_one`. -/
def idMatches (iid : String) (d : Row) : Bool :=
  rowGet d "incident_id" = some (Cell.val iid)

/-- `DataService.get_incident_by_id`
(`src/utils/data_service.py`, lines 194-211): `find_one` on `incident_id`
with `_id` and the ingestion metadata projected away. -/
def getIncidentById (coll : List Row) (iid : String) (avail : Bool) :
    Option Row :=
  if avail then
    (coll.find? (idMatches iid)).map (dropKeys ["_id", "_ingested_at", "_source"])
  else none

/-- MongoDB `update_one`: apply an update to the first document accepted by
the filter, returning the new collection and `modified_count` — which
counts the document only when the update actually changed it. -/
def updateFirst (p : Row → Bool) (f : Row → Row) : List Row → List Row × Nat
  | [] => ([], 0)
  | d :: t =>
    if p d then (f d :: t, if f d = d then 0 else 1)
    else
      let r := updateFirst p f t
      (d :: r.1, r.2)

/-- `DataService.update_incident_assignment`
(`src/utils/data_service.py`, lines 243-275): build the `$set` document
with `assigned_to` and `_updated_at`, add `status: "Assigned"` exactly when
the current status is `"Open"`, update the first matching incident and
report whether a document was modified. -/
def updateIncidentAssignment (coll : List Row) (iid agent now : String)
    (avail : Bool) : List Row × Bool :=
  if avail then
    let incident := getIncidentById coll iid true
    let upd := [("assigned_to", Cell.val agent), ("_updated_at", Cell.val now)] ++
      (match incident with
       | some inc =>
         if ¬ inc.isEmpty ∧ rowGet inc "status" = some (Cell.val "Open") then
           [("status", Cell.val "Assigned")]
         else []
       | none => [])
    let res := updateFirst (idMatches iid) (fun d => applySet d upd) coll
    (res.1, 0 < res.2)
  else (coll, false)

/-! ### Label-based extraction (`bedrock_client.py`) -/

/-- Python `line.split(sep)` without a maxsplit bound. -/
def splitCh (sep : Char) : List Char → List (List Char)
  | [] => [[]]
  | c :: cs =>
    if c = sep then [] :: splitCh sep cs
    else
      match splitCh sep cs with
      | [] => [[c]]
      | p :: ps => (c :: p) :: ps

/-- Python `s.split('\n')`. -/
def pyLines (s : String) : List String :=
  (splitCh '\n' s.data).map fun l => (⟨l⟩ : String)

/-- `line.split(':')[1]`: for a line containing a colon, the text between
the first and the second colon. -/
def secondField (line : String) : String :=
  ⟨(splitCh ':' line.data).getD 1 []⟩

/-- `line.split(':', 1)[1]`: everything after the first colon. -/
def afterFirstColon (line : String) : String :=
  ⟨(line.data.dropWhile fun c => c ≠ ':').tail⟩

/-- Python `str.strip` on strings. -/
def pyStripS (s : String) : String := ⟨stripL s.data⟩

/-- One iteration of the parsing loop of `classify_incident_priority`
(`src/utils/bedrock_client.py`, lines 544-548; the same loop appears in the
AI Features page): a `Priority:` line is captured through
`line.split(':')[1]`, a `Reasoning:` line through `line.split(':', 1)[1]`. -/
def classifyStep (st : String × String) (line : String) : String × String :=
  if hasPrefixL "Priority:".data line.data then (pyStripS (secondField line), st.2)
  else if hasPrefixL "Reasoning:".data line.data then (st.1, pyStripS (afterFirstColon line))
  else st

/-- The label-based extraction of `classify_incident_priority`
(`src/utils/bedrock_client.py`, lines 539-550) over a model response, with
the caller-supplied defaults `"P3"` and `"Unable to determine"`. -/
def classifyExtract (response : String) : List (String × String) :=
  let st := (pyLines response).foldl classifyStep ("P3", "Unable to determine")
  [("priority", st.1), ("reasoning", st.2)]

/-- The multi-line fields of the KB-article schema. -/
inductive KbField where
  | problem
  | solution
  deriving DecidableEq

/-- Parsing state of `generate_kb_article`: the four sections plus the
`current_section` context. -/
structure KbState where
  title : String
  problem : String
  solution : String
  tags : String
  cur : Option KbField
  deriving DecidableEq

/-- Append a continuation line to the current section. -/
def kbAppend (st : KbState) (f : KbField) (line : String) : KbState :=
  match f with
  | .problem => { st with problem := st.problem ++ " " ++ pyStripS line }
  | .solution => { st with solution := st.solution ++ " " ++ pyStripS line }

/-- One iteration of the parsing loop of `generate_kb_article`
(`src/utils/bedrock_client.py`, lines 606-619): label lines capture the
remainder after the first colon and switch the current section (`Title:`
leaves it unchanged, `Tags:` clears it); non-blank other lines are appended
to the current section. -/
def kbStep (st : KbState) (line : String) : KbState :=
  if hasPrefixL "Title:".data line.data then
    { st with title := pyStripS (afterFirstColon line) }
  else if hasPrefixL "Problem:".data line.data then
    { st with problem := pyStripS (afterFirstColon line), cur := some .problem }
  else if hasPrefixL "Solution:".data line.data then
    { st with solution := pyStripS (afterFirstColon line), cur := some .solution }
  else if hasPrefixL "Tags:".data line.data then
    { st with tags := pyStripS (afterFirstColon line), cur := none }
  else
    match st.cur with
    | some f => if pyStripS line ≠ "" then kbAppend st f line else st
    | none => st

/-- The label-based extraction of `generate_kb_article`
(`src/utils/bedrock_client.py`, lines 602-621), with the caller-supplied
defaults `""` for every field. -/
def kbExtract (response : String) : List (String × String) :=
  let st := (pyLines response).foldl kbStep ⟨"", "", "", "", none⟩
  [("title", st.title), ("problem", st.problem),
   ("solution", st.solution), ("tags", st.tags)]

/-- The claim-side reading of `line.split(':')[1]`: the text of the line
between its first and second colon (to end of line when there is no second
colon). -/
def betweenColons (line : String) : String :=
  ⟨((line.data.dropWhile fun c => c ≠ ':').tail).takeWhile fun c => c ≠ ':'⟩

/-- A response wrapped in a ```` ```json ```` fence, as in the spec's
round-trip property for the JSON-array flavour. -/
def wrapJsonFence (t : String) : String := "```json\n" ++ t ++ "\n```"

/-- The claim-side row-limit semantics of `get_workload`: the limit is
applied only after filtering, and a zero limit — falsy in Python — means no
limit. -/
def limTake (limit : Option Nat) (l : List Row) : List Row :=
  match limit with
  | none => l
  | some n => if n = 0 then l else l.take n

/-- A one-incident table whose category has no match, used to probe the
enrichment joins. -/
def cxIncidents : Df :=
  { cols := ["incident_id", "category_id", "service_id"]
    rows := [[("incident_id", Cell.val "I1"), ("category_id", Cell.val "C9"),
      ("service_id", Cell.val "SVC9")]] }

/-- A categories table with a single row, keyed `C1`. -/
def cxCategories : Df :=
  { cols := ["category_id", "name"]
    rows := [[("category_id", Cell.val "C1"), ("name", Cell.val "Networking")]] }

/-- A services table with a single row, keyed `SVC1`. -/
def cxServices : Df :=
  { cols := ["service_id", "name"]
    rows := [[("service_id", Cell.val "SVC1"), ("name", Cell.val "Email")]] }

/-- An incidents table that already carries a `category_name` column, which
collides with the derived column of the category join. -/
def clashIncidents : Df :=
  { cols := ["category_id", "category_name"]
    rows := [[("category_id", Cell.val "C9"), ("category_name", Cell.val "Old")]] }

/-- A categories table with a duplicated key, fanning the left join out. -/
def dupCategories : Df :=
  { cols := ["category_id", "name"]
    rows := [[("category_id", Cell.val "C1"), ("name", Cell.val "A")],
      [("category_id", Cell.val "C1"), ("name", Cell.val "B")]] }

/-- A one-row incidents table keyed to the duplicated category. -/
def dupIncidents : Df :=
  { cols := ["category_id"]
    rows := [[("category_id", Cell.val "C1")]] }

/-- The record produced from the empty model object in resolved mode under
`defaultEnv` — used to instantiate the validator theorems. -/
def baseRecord : IncidentRecord where
  incidentId := "INC1000"
  title := .str "IT Support Request"
  description := .str "User requires technical assistance"
  priority := .str "P3"
  status := .str "Resolved"
  category := .str "Password Reset"
  service := .str "Workplace Technology"
  urgency := .str "Medium"
  impact := .str "Medium"
  location := .str "Sydney"
  channel := .str "Email"
  assignedTo := .str "AGT005"
  createdOn := .str "2026-01-01 02:00:00"
  slaDue := .str "2026-01-02 00:00:00"
  customerId := .str "USR1500"
  resolutionCode := .str "Fixed"
  resolvedOn := .str "2026-01-01 01:00:00"
  resolutionNotes := .str "Issue resolved successfully"
  ingestedAt := "2026-01-01 00:00:00"
  sourceTag := "ai_generated"

/-- One enrichment run over the duplicated-key categories table. -/
def dupOnce : Df := enrichIncidents dupIncidents (some dupCategories) none

/-- A second enrichment run on the first run's output, with the added
columns of the first run dropped. -/
def dupTwice : Df :=
  enrichIncidents (dropCols dupOnce (addedCols dupIncidents dupOnce))
    (some dupCategories) none

/-! ### General lemmas -/

theorem splitCh_ne_nil (sep : Char) (l : List Char) : splitCh sep l ≠ [] := by
  cases l with
  | nil => simp [splitCh]
  | cons c cs =>
    simp only [splitCh]
    split
    · simp
    · cases h : splitCh sep cs <;> simp

theorem splitCh_headD (sep : Char) (l : List Char) :
    (splitCh sep l).headD [] = l.takeWhile fun c => ¬ c = sep := by
  induction l with
  | nil => rfl
  | cons c cs ih =>
    by_cases hc : c = sep
    · subst hc
      simp [splitCh, List.takeWhile_cons]
    · simp only [splitCh, if_neg hc, List.takeWhile_cons]
      cases h : splitCh sep cs with
      | nil => exact absurd h (splitCh_ne_nil sep cs)
      | cons p ps =>
        rw [h] at ih
        simp only [List.headD_cons] at ih
        simp [hc, ih]

theorem splitCh_getD_one (sep : Char) (l : List Char) (h : sep ∈ l) :
    (splitCh sep l).getD 1 [] =
      ((l.dropWhile fun c => ¬ c = sep).tail).takeWhile fun c => ¬ c = sep := by
  induction l with
  | nil => cases h
  | cons c cs ih =>
    by_cases hc : c = sep
    · subst hc
      have hdw : List.dropWhile (fun c' => ¬ c' = c) (c :: cs) = c :: cs := by
        simp [List.dropWhile_cons]
      rw [hdw]
      simp only [List.tail_cons]
      have : splitCh c (c :: cs) = [] :: splitCh c cs := by
        simp [splitCh]
      rw [this]
      have hne := splitCh_ne_nil c cs
      cases hsp : splitCh c cs with
      | nil => exact absurd hsp hne
      | cons p ps =>
        have hh := splitCh_headD c cs
        rw [hsp] at hh
        simp only [List.headD_cons] at hh
        simp [hh]
    · have hmem : sep ∈ cs := by
        cases h with
        | head => exact absurd rfl hc
        | tail _ h => exact h
      have hdw : List.dropWhile (fun c' => ¬ c' = sep) (c :: cs) =
          List.dropWhile (fun c' => ¬ c' = sep) cs := by
        simp [List.dropWhile_cons, hc]
      rw [hdw]
      cases hsp : splitCh sep cs with
      | nil => exact absurd hsp (splitCh_ne_nil sep cs)
      | cons p ps =>
        have hstep : splitCh sep (c :: cs) = (c :: p) :: ps := by
          simp [splitCh, if_neg hc, hsp]
        rw [hstep]
        rw [hsp] at ih
        simpa using ih hmem

theorem splitCh_not_mem (sep : Char) (l : List Char) (h : ¬ sep ∈ l) :
    splitCh sep l = [l] := by
  induction l with
  | nil => simp [splitCh]
  | cons c cs ih =>
    have hc : ¬ c = sep := fun hh => h (hh ▸ List.mem_cons_self c cs)
    have hcs : ¬ sep ∈ cs := fun hh => h (List.mem_cons_of_mem c hh)
    simp [splitCh, if_neg hc, ih hcs]

theorem pyLines_single (s : String) (h : ¬ '\n' ∈ s.data) : pyLines s = [s] := by
  simp [pyLines, splitCh_not_mem '\n' s.data h]

theorem foldl_classify_id (lines : List String) (st : String × String)
    (h : ∀ l ∈ lines, hasPrefixL "Priority:".data l.data = false ∧
      hasPrefixL "Reasoning:".data l.data = false) :
    lines.foldl classifyStep st = st := by
  induction lines generalizing st with
  | nil => rfl
  | cons l ls ih =>
    have hl := h l (List.mem_cons_self l ls)
    have hstep : classifyStep st l = st := by
      simp [classifyStep, hl.1, hl.2]
    simp only [List.foldl_cons, hstep]
    exact ih st fun x hx => h x (List.mem_cons_of_mem l hx)

theorem foldl_kb_id (lines : List String) (st : KbState) (hcur : st.cur = none)
    (h : ∀ l ∈ lines, hasPrefixL "Title:".data l.data = false ∧
      hasPrefixL "Problem:".data l.data = false ∧
      hasPrefixL "Solution:".data l.data = false ∧
      hasPrefixL "Tags:".data l.data = false) :
    lines.foldl kbStep st = st := by
  induction lines generalizing st with
  | nil => rfl
  | cons l ls ih =>
    have hl := h l (List.mem_cons_self l ls)
    have hstep : kbStep st l = st := by
      simp [kbStep, hl.1, hl.2.1, hl.2.2.1, hl.2.2.2, hcur]
    simp only [List.foldl_cons, hstep]
    exact ih st hcur fun x hx => h x (List.mem_cons_of_mem l hx)

/-! ### Claim theorems -/

/-- C5.  For every response text — empty text and label-free text included —
the label-based extractions are total functions whose result maps list every
declared field of their schema (so no exception and no partially-initialized
record is possible), and a response with no recognized label line leaves
every field at its caller-supplied default: `"P3"`/`"Unable to determine"`
for the triage schema, `""` for the four KB-article fields. -/
theorem extract_total_defaults (s : String) :
    ((classifyExtract s).map Prod.fst = ["priority", "reasoning"]) ∧
    ((kbExtract s).map Prod.fst = ["title", "problem", "solution", "tags"]) ∧
    ((∀ l ∈ pyLines s, hasPrefixL "Priority:".data l.data = false ∧
        hasPrefixL "Reasoning:".data l.data = false) →
      classifyExtract s = [("priority", "P3"), ("reasoning", "Unable to determine")]) ∧
    ((∀ l ∈ pyLines s, hasPrefixL "Title:".data l.data = false ∧
        hasPrefixL "Problem:".data l.data = false ∧
        hasPrefixL "Solution:".data l.data = false ∧
        hasPrefixL "Tags:".data l.data = false) →
      kbExtract s = [("title", ""), ("problem", ""), ("solution", ""), ("tags", "")]) := by
  refine ⟨rfl, rfl, ?_, ?_⟩
  · intro h
    have hfold := foldl_classify_id (pyLines s) ("P3", "Unable to determine") h
    simp only [classifyExtract, hfold]
  · intro h
    have hfold := foldl_kb_id (pyLines s) ⟨"", "", "", "", none⟩ rfl h
    simp only [kbExtract, hfold]

/-- Witness for C5 at the concrete label-free response `"no labels here"`. -/
theorem extract_total_defaults_witness :
    classifyExtract "no labels here" =
      [("priority", "P3"), ("reasoning", "Unable to determine")] ∧
    kbExtract "no labels here" =
      [("title", ""), ("problem", ""), ("solution", ""), ("tags", "")] :=
  ⟨(extract_total_defaults "no labels here").2.2.1 (by decide),
   (extract_total_defaults "no labels here").2.2.2 (by decide)⟩

/-- C8, counterexample.  On the line `"Priority: P2: urgent"` the code
captures `"P2"` (the text between the first and second colon, because the
`Priority:` branch splits on every colon), not the entire remainder
`"P2: urgent"` after the first colon. -/
theorem classify_colon_counterexample :
    classifyExtract "Priority: P2: urgent" =
      [("priority", "P2"), ("reasoning", "Unable to determine")] ∧
    pyStripS (afterFirstColon "Priority: P2: urgent") = "P2: urgent" ∧
    ("P2" : String) ≠ "P2: urgent" :=
  ⟨rfl, rfl, by decide⟩

/-- C8, amended.  On a `Reasoning:` line the captured initial content is the
whole remainder of the line after the first colon, stripped — colons in the
value included; but on a `Priority:` line it is only the stripped text
between the first and the second colon (the whole remainder when the value
has no further colon). -/
theorem classify_label_capture (line : String) (hnl : ¬ '\n' ∈ line.data) :
    (hasPrefixL "Priority:".data line.data = true →
      (classifyExtract line).lookup "priority" = some (pyStripS (betweenColons line))) ∧
    (hasPrefixL "Reasoning:".data line.data = true →
      (classifyExtract line).lookup "reasoning" = some (pyStripS (afterFirstColon line))) := by
  constructor
  · intro hp
    have hcolon : ':' ∈ line.data := by
      obtain ⟨t, ht⟩ := (List.isPrefixOf_iff_prefix).mp hp
      rw [← ht]
      exact List.mem_append_left _ (by decide)
    have hsf : secondField line = betweenColons line := by
      simp only [secondField, betweenColons]
      rw [splitCh_getD_one ':' line.data hcolon]
    simp only [classifyExtract, pyLines_single line hnl, List.foldl_cons,
      List.foldl_nil, classifyStep, hp, if_pos rfl, hsf]
    rfl
  · intro hr
    have hnp : hasPrefixL "Priority:".data line.data = false := by
      by_contra hc
      have hc' : hasPrefixL "Priority:".data line.data = true := by
        revert hc
        cases hasPrefixL "Priority:".data line.data <;> simp
      have h1 := (List.isPrefixOf_iff_prefix).mp hc'
      have h2 := (List.isPrefixOf_iff_prefix).mp hr
      rcases List.prefix_or_prefix_of_prefix h1 h2 with h | h
      · exact absurd h (by decide)
      · exact absurd h (by decide)
    simp only [classifyExtract, pyLines_single line hnl, List.foldl_cons,
      List.foldl_nil, classifyStep, hnp, hr]
    rfl

/-- Witness for C8 at the concrete lines `"Priority: P2"` and
`"Reasoning: partial outage"`. -/
theorem classify_label_capture_witness :
    (classifyExtract "Priority: P2").lookup "priority" =
      some (pyStripS (betweenColons "Priority: P2")) ∧
    (classifyExtract "Reasoning: partial outage").lookup "reasoning" =
      some (pyStripS (afterFirstColon "Reasoning: partial outage")) :=
  ⟨(classify_label_capture "Priority: P2" (by decide)).1 (by decide),
   (classify_label_capture "Reasoning: partial outage" (by decide)).2 (by decide)⟩

/-- A nonempty string value is truthy. -/
theorem truthy_str_of_ne (s : String) (h : ¬ s = "") :
    (Json.str s).truthy = true := by
  simp [Json.truthy, h]

/-- Every fixed resolution code is a nonempty string. -/
theorem resolutionCodes_get_ne (i : Fin resolutionCodes.length) :
    ¬ resolutionCodes.get i = "" := by
  revert i
  decide

/-- Every fixed resolution code is in the allowed set. -/
theorem resolutionCodes_get_mem (i : Fin resolutionCodes.length) :
    resolutionCodes.get i ∈ resolutionCodes := by
  revert i
  decide

/-- Every randomly drawn unresolved status lies in the unresolved set. -/
theorem unresolvedStatuses_get_mem (i : Fin unresolvedStatuses.length) :
    unresolvedStatuses.get i ∈ unresolvedStatuses := by
  revert i
  decide

/-- The synthesized agent id `f"AGT{n:03d}"` is a nonempty string. -/
theorem agt_ne_empty (n : Nat) : ¬ ("AGT" ++ padNum 3 n) = "" := by
  intro h
  have hd := congrArg String.data h
  rw [String.data_append] at hd
  simp at hd

/-- A truthy unresolved status value is a string from the unresolved set. -/
theorem isUnresolvedStatus_elim (j : Json) (h : isUnresolvedStatus j = true) :
    ∃ s, j = Json.str s ∧ s ∈ unresolvedStatuses := by
  cases j <;> simp_all [isUnresolvedStatus]

/-- C2.  For every decoded object (in both modes the validator succeeds or
fails on the same objects), processing in resolved mode yields a record whose
`resolution_code`, `resolved_on` and `resolution_notes` are truthy
(non-empty; synthesized when the model left them falsy), whose `assigned_to`
is truthy, and whose status is exactly `"Resolved"`; processing in
unresolved mode yields empty `resolution_code`, `resolved_on` and
`resolution_notes` regardless of the model output, and a status from
`{"Open", "In Progress", "Assigned"}`.  The hypothesis on
`env.randResolvedOn` records that `_generate_past_datetime` always returns a
nonempty timestamp string. -/
theorem processAiIncident_policy (j : Json) (i : Nat) (env : GenEnv)
    (henv : ¬ env.randResolvedOn = "") :
    (∀ r, processAiIncident j i "resolved" env = some r →
      r.resolutionCode.truthy = true ∧ r.resolvedOn.truthy = true ∧
      r.resolutionNotes.truthy = true ∧ r.assignedTo.truthy = true ∧
      r.status = Json.str "Resolved") ∧
    (∀ r, processAiIncident j i "unresolved" env = some r →
      r.resolutionCode = Json.str "" ∧ r.resolvedOn = Json.str "" ∧
      r.resolutionNotes = Json.str "" ∧
      ∃ s, r.status = Json.str s ∧ s ∈ unresolvedStatuses) := by
  constructor
  · intro r h
    cases j with
    | obj fields =>
      simp only [processAiIncident] at h
      split at h
      · simp only [if_true, Option.some.injEq] at h
        subst h
        refine ⟨?_, ?_, ?_, ?_, rfl⟩
        · try dsimp only
          by_cases hc : (jget fields "resolution_code" (Json.str "")).truthy = true
          · rw [if_pos hc]
            exact hc
          · rw [if_neg hc]
            exact truthy_str_of_ne _ (resolutionCodes_get_ne env.randCode)
        · try dsimp only
          by_cases hc : (jget fields "resolved_on" (Json.str "")).truthy = true
          · rw [if_pos hc]
            exact hc
          · rw [if_neg hc]
            exact truthy_str_of_ne _ henv
        · try dsimp only
          by_cases hc : (jget fields "resolution_notes" (Json.str "")).truthy = true
          · rw [if_pos hc]
            exact hc
          · rw [if_neg hc]
            exact truthy_str_of_ne _ (by decide)
        · try dsimp only
          by_cases hc : (jget fields "assigned_to" (Json.str "")).truthy = true
          · rw [if_pos hc]
            exact hc
          · rw [if_neg hc]
            exact truthy_str_of_ne _ (agt_ne_empty env.randAgentNum)
      · exact Option.noConfusion h
    | null => exact Option.noConfusion h
    | bool b => exact Option.noConfusion h
    | num raw => exact Option.noConfusion h
    | str s => exact Option.noConfusion h
    | arr elems => exact Option.noConfusion h
  · intro r h
    cases j with
    | obj fields =>
      simp only [processAiIncident] at h
      split at h
      · rw [if_neg (by decide : ¬ ("unresolved" : String) = "resolved")] at h
        simp only [Option.some.injEq] at h
        subst h
        refine ⟨rfl, rfl, rfl, ?_⟩
        try dsimp only
        by_cases hst : isUnresolvedStatus (jget fields "status" (Json.str "Open")) = true
        · rw [if_pos hst]
          exact isUnresolvedStatus_elim _ hst
        · rw [if_neg hst]
          exact ⟨_, rfl, unresolvedStatuses_get_mem env.randStatus⟩
      · exact Option.noConfusion h
    | null => exact Option.noConfusion h
    | bool b => exact Option.noConfusion h
    | num raw => exact Option.noConfusion h
    | str s => exact Option.noConfusion h
    | arr elems => exact Option.noConfusion h

/-- Witness for C2: the empty model object processed in resolved mode under
`defaultEnv`. -/
theorem processAiIncident_policy_witness :
    ¬ defaultEnv.randResolvedOn = "" ∧
    (baseRecord.resolutionCode.truthy = true ∧ baseRecord.resolvedOn.truthy = true ∧
      baseRecord.resolutionNotes.truthy = true ∧ baseRecord.assignedTo.truthy = true ∧
      baseRecord.status = Json.str "Resolved") :=
  ⟨by decide,
   (processAiIncident_policy (Json.obj []) 0 defaultEnv (by decide)).1 baseRecord rfl⟩

/-- C3, counterexample.  A model-supplied non-empty `resolution_code`
outside the fixed allowed set is passed through unchanged by the validator
rather than replaced: at the concrete object
`{"resolution_code": "Banana"}` the processed record carries `"Banana"`,
which is not in the allowed set. -/
theorem resolution_code_counterexample :
    (processAiIncident (Json.obj [("resolution_code", Json.str "Banana")]) 0
        "resolved" defaultEnv).map (fun r => r.resolutionCode) =
      some (Json.str "Banana") ∧
    ¬ ("Banana" ∈ resolutionCodes) :=
  ⟨rfl, by decide⟩

/-- C3, amended.  In resolved mode the validator replaces only a falsy
(missing or empty) `resolution_code` by a randomly chosen member of the
fixed set `{"Fixed", "Workaround", "User Error", "Duplicate"}`; a truthy
model-supplied value — valid or not — is passed through unchanged, so
membership in the set is guaranteed only for synthesized values. -/
theorem processAiIncident_resolutionCode (fields : List (String × Json)) (i : Nat)
    (env : GenEnv) (r : IncidentRecord)
    (h : processAiIncident (Json.obj fields) i "resolved" env = some r) :
    ((jget fields "resolution_code" (Json.str "")).truthy = false →
      ∃ c ∈ resolutionCodes, r.resolutionCode = Json.str c) ∧
    ((jget fields "resolution_code" (Json.str "")).truthy = true →
      r.resolutionCode = jget fields "resolution_code" (Json.str "")) := by
  simp only [processAiIncident] at h
  split at h
  · simp only [if_true, Option.some.injEq] at h
    subst h
    constructor
    · intro ht
      try dsimp only
      rw [if_neg (by simp [ht])]
      exact ⟨resolutionCodes.get env.randCode, resolutionCodes_get_mem env.randCode, rfl⟩
    · intro ht
      try dsimp only
      rw [if_pos ht]
  · exact Option.noConfusion h

/-- Witness for C3 at the concrete object `{"resolution_code": "Banana"}`:
the truthy supplied value is passed through. -/
theorem processAiIncident_resolutionCode_witness :
    (jget [("resolution_code", Json.str "Banana")] "resolution_code"
        (Json.str "")).truthy = true ∧
    { baseRecord with resolutionCode := Json.str "Banana" }.resolutionCode =
      jget [("resolution_code", Json.str "Banana")] "resolution_code" (Json.str "") :=
  ⟨by decide,
   (processAiIncident_resolutionCode [("resolution_code", Json.str "Banana")] 0
      defaultEnv { baseRecord with resolutionCode := Json.str "Banana" } rfl).2
    (by decide)⟩

set_option maxRecDepth 8192 in
/-- C1, counterexample.  At the response `"{}"` — valid JSON but an object —
the batch extraction raises, but the escaping message carries only the
Python type of the parsed value, not the cleaned text: the cleaned-text
preview is not contained in the message. -/
theorem generateAiBatch_counterexample :
    generateAiBatch "\x7b\x7d" "resolved" (fun _ => defaultEnv) =
      Except.error "Error in AI batch generation: Response is not a JSON array, got: <class \x27dict\x27>" ∧
    ¬ ((take200 (cleanResponse "\x7b\x7d")).data <:+:
      ("Error in AI batch generation: Response is not a JSON array, got: <class \x27dict\x27>").data) :=
  ⟨rfl, by decide⟩

/-- The non-list branch of the batch extraction: raising with the parsed
value's Python type. -/
theorem nonListCase (response statusType : String) (envs : Nat → GenEnv)
    (hr : ¬ response = "") (v : Json)
    (hload : jsonLoads (cleanResponse response) = some v) (hna : v.isArr = false) :
    ((∃ m, generateAiBatch response statusType envs = Except.error m) ↔
      (jsonLoads (cleanResponse response) = none ∨
        ∃ w, jsonLoads (cleanResponse response) = some w ∧ w.isArr = false)) ∧
    (jsonLoads (cleanResponse response) = none →
      ∀ m, generateAiBatch response statusType envs = Except.error m →
        (take200 (cleanResponse response)).data <:+: m.data) ∧
    (∀ items, jsonLoads (cleanResponse response) = some (Json.arr items) →
      generateAiBatch response statusType envs =
        Except.ok (processItems items statusType envs)) := by
  have heq : generateAiBatch response statusType envs =
      Except.error (wrapErr ("Response is not a JSON array, got: " ++ v.pyTypeName)) := by
    cases v with
    | arr items => exact absurd hna (by simp [Json.isArr])
    | null => simp only [generateAiBatch, if_neg hr, hload]
    | bool b => simp only [generateAiBatch, if_neg hr, hload]
    | num raw => simp only [generateAiBatch, if_neg hr, hload]
    | str s => simp only [generateAiBatch, if_neg hr, hload]
    | obj fields => simp only [generateAiBatch, if_neg hr, hload]
  refine ⟨iff_of_true ⟨_, heq⟩ (Or.inr ⟨v, hload, hna⟩), ?_, ?_⟩
  · intro hnone
    exact Option.noConfusion (hload.symm.trans hnone)
  · intro items hitems
    have hv := Option.some.inj (hload.symm.trans hitems)
    rw [hv] at hna
    exact absurd hna (by simp [Json.isArr])

/-- C1, amended.  The JSON-array extraction raises exactly when the
fence-stripped text fails to parse as JSON or parses to a non-list value
(an empty model response is reported before parsing, and its empty cleaned
text also fails to parse, so the equivalence is unconditional); on a parse
failure the escaping error message carries a preview of the cleaned text,
while on a non-list result it identifies the Python type of the parsed
value; on success the function returns the processed incident records of
the array — never an error silently converted into an empty list. -/
theorem generateAiBatch_spec (response statusType : String) (envs : Nat → GenEnv) :
    ((∃ m, generateAiBatch response statusType envs = Except.error m) ↔
      (jsonLoads (cleanResponse response) = none ∨
        ∃ v, jsonLoads (cleanResponse response) = some v ∧ v.isArr = false)) ∧
    (jsonLoads (cleanResponse response) = none →
      ∀ m, generateAiBatch response statusType envs = Except.error m →
        (take200 (cleanResponse response)).data <:+: m.data) ∧
    (∀ items, jsonLoads (cleanResponse response) = some (Json.arr items) →
      generateAiBatch response statusType envs =
        Except.ok (processItems items statusType envs)) := by
  by_cases hr : response = ""
  · subst hr
    have hload : jsonLoads (cleanResponse "") = none := rfl
    refine ⟨iff_of_true ⟨_, rfl⟩ (Or.inl hload), ?_, ?_⟩
    · intro _ m _
      have hprev : (take200 (cleanResponse "")).data = [] := rfl
      rw [hprev]
      exact List.nil_infix
    · intro items hitems
      exact Option.noConfusion (hload.symm.trans hitems)
  · have hsplit : jsonLoads (cleanResponse response) = none ∨
        ∃ v, jsonLoads (cleanResponse response) = some v := by
      cases jsonLoads (cleanResponse response) with
      | none => exact Or.inl rfl
      | some v => exact Or.inr ⟨v, rfl⟩
    rcases hsplit with hload | ⟨v, hload⟩
    · have heq : generateAiBatch response statusType envs =
          Except.error (wrapErr ("Failed to parse JSON response: Expecting value. Cleaned response preview: " ++
            take200 (cleanResponse response) ++ "...")) := by
        simp only [generateAiBatch, if_neg hr, hload]
      refine ⟨iff_of_true ⟨_, heq⟩ (Or.inl hload), ?_, ?_⟩
      · intro _ m hm
        rw [heq] at hm
        have hmv : m = wrapErr ("Failed to parse JSON response: Expecting value. Cleaned response preview: " ++
            take200 (cleanResponse response) ++ "...") := (Except.error.inj hm).symm
        subst hmv
        refine ⟨("Error in AI batch generation: Failed to parse JSON response: Expecting value. Cleaned response preview: ").data,
          ("...").data, ?_⟩
        simp [wrapErr, String.data_append, List.append_assoc]
      · intro items hitems
        exact Option.noConfusion (hload.symm.trans hitems)
    · cases v with
      | arr items =>
        have heq : generateAiBatch response statusType envs =
            Except.ok (processItems items statusType envs) := by
          simp only [generateAiBatch, if_neg hr, hload]
        refine ⟨iff_of_false ?_ ?_, ?_, ?_⟩
        · rintro ⟨m, hm⟩
          rw [heq] at hm
          exact Except.noConfusion hm
        · rintro (hnone | ⟨v', hv', hfalse⟩)
          · exact Option.noConfusion (hload.symm.trans hnone)
          · have hv2 : Json.arr items = v' := Option.some.inj (hload.symm.trans hv')
            rw [← hv2] at hfalse
            exact Bool.noConfusion hfalse
        · intro hnone
          exact Option.noConfusion (hload.symm.trans hnone)
        · intro items' hitems
          have hv2 : Json.arr items = Json.arr items' :=
            Option.some.inj (hload.symm.trans hitems)
          rw [← Json.arr.inj hv2]
          exact heq
      | null => exact nonListCase response statusType envs hr Json.null hload rfl
      | bool b => exact nonListCase response statusType envs hr (Json.bool b) hload rfl
      | num raw => exact nonListCase response statusType envs hr (Json.num raw) hload rfl
      | str s => exact nonListCase response statusType envs hr (Json.str s) hload rfl
      | obj fields => exact nonListCase response statusType envs hr (Json.obj fields) hload rfl

/-- Witness for C1 at the concrete response `"[]"`: a successful parse to an
empty array yields an `ok` result. -/
theorem generateAiBatch_spec_witness :
    generateAiBatch "[]" "resolved" (fun _ => defaultEnv) = Except.ok [] :=
  (generateAiBatch_spec "[]" "resolved" (fun _ => defaultEnv)).2.2 [] rfl

/-- The head of a `dropWhile` result fails the predicate. -/
theorem dropWhile_head_false (p : Char → Bool) (l : List Char) (c : Char)
    (cs : List Char) (h : l.dropWhile p = c :: cs) : p c = false := by
  induction l with
  | nil => exact List.noConfusion h
  | cons a as ih =>
    rw [List.dropWhile_cons] at h
    by_cases hp : p a = true
    · rw [if_pos hp] at h
      exact ih h
    · rw [if_neg hp] at h
      cases h
      revert hp
      cases p c <;> simp

/-- `dropWhile` is idempotent. -/
theorem dropWhile_idem (p : Char → Bool) (l : List Char) :
    (l.dropWhile p).dropWhile p = l.dropWhile p := by
  cases h : l.dropWhile p with
  | nil => rfl
  | cons c cs =>
    rw [List.dropWhile_cons, if_neg]
    rw [dropWhile_head_false p l c cs h]
    simp

/-- Dropping over an all-satisfying block skips it. -/
theorem dropWhile_append_all (p : Char → Bool) (a b : List Char)
    (h : ∀ c ∈ a, p c = true) : (a ++ b).dropWhile p = b.dropWhile p := by
  induction a with
  | nil => rfl
  | cons c cs ih =>
    rw [List.cons_append, List.dropWhile_cons, if_pos (h c (List.mem_cons_self c cs))]
    exact ih fun x hx => h x (List.mem_cons_of_mem c hx)

/-- No string whose stripped form does not start with a fence can grow a
fence by appending text that starts with whitespace. -/
theorem fence3_prefix_append (s : List Char) (c : Char) (cs : List Char)
    (h : hasPrefixL fence3 s = false) (hc : pyWs c = true) :
    hasPrefixL fence3 (s ++ c :: cs) = false := by
  have hcb : ¬ c = '`' := by
    intro hh
    subst hh
    exact Bool.noConfusion hc
  rcases s with _ | ⟨a, _ | ⟨b, _ | ⟨d, s3⟩⟩⟩
  · simp [hasPrefixL, fence3, List.isPrefixOf]
    intro hca
    exact absurd hca.symm hcb
  · simp only [hasPrefixL, fence3, List.cons_append, List.nil_append] at h ⊢
    simp [List.isPrefixOf] at h ⊢
    intro ha hca
    exact absurd hca.symm hcb
  · simp only [hasPrefixL, fence3, List.cons_append, List.nil_append] at h ⊢
    simp [List.isPrefixOf] at h ⊢
    intro ha hb hca
    exact absurd hca.symm hcb
  · have hred : hasPrefixL fence3 ((a :: b :: d :: s3) ++ c :: cs) =
        hasPrefixL fence3 (a :: b :: d :: s3) := by
      simp [hasPrefixL, fence3, List.isPrefixOf]
    rw [hred]
    exact h

/-- A list bounded by non-whitespace characters is already stripped. -/
theorem stripL_eq_self_of (a b : Char) (mid : List Char)
    (ha : pyWs a = false) (hb : pyWs b = false) :
    stripL (a :: (mid ++ [b])) = a :: (mid ++ [b]) := by
  have hdw : (a :: (mid ++ [b])).dropWhile pyWs = a :: (mid ++ [b]) := by
    rw [List.dropWhile_cons, if_neg (by rw [ha]; simp)]
  rw [stripL, hdw, stripEndL]
  have hrev : (a :: (mid ++ [b])).reverse = b :: (a :: mid).reverse := by
    simp
  rw [hrev, List.dropWhile_cons, if_neg (by rw [hb]; simp)]
  simp

/-- The stripped-suffix decomposition: a list splits into its end-stripped
part followed by trailing whitespace. -/
theorem stripEndL_decomp (l : List Char) :
    stripEndL l ++ (l.reverse.takeWhile pyWs).reverse = l ∧
    (∀ c ∈ (l.reverse.takeWhile pyWs).reverse, pyWs c = true) := by
  constructor
  · have := List.takeWhile_append_dropWhile (p := pyWs) (l := l.reverse)
    have h2 := congrArg List.reverse this
    rw [List.reverse_append, List.reverse_reverse] at h2
    exact h2
  · intro c hc
    rw [List.mem_reverse] at hc
    exact List.mem_takeWhile_imp hc

/-- End-stripping is idempotent. -/
theorem stripEndL_idem (l : List Char) : stripEndL (stripEndL l) = stripEndL l := by
  rw [stripEndL, stripEndL, List.reverse_reverse, dropWhile_idem]

/-- C6 on character lists: wrapping a text whose stripped form neither
starts nor ends with a fence marker does not change the result of the
cleanup. -/
theorem cleanData_wrap (l : List Char)
    (h1 : hasPrefixL fence3 (stripL l) = false)
    (h2 : hasSuffixL fence3 (stripL l) = false) :
    cleanData ("```json\n".data ++ (l ++ "\n```".data)) = cleanData l := by
  have hw : "```json\n".data ++ (l ++ "\n```".data) =
      '`' :: ((("``json\n".data ++ l) ++ "\n``".data) ++ ['`']) := by
    simp [List.append_assoc]
  have hstrip0 : stripL ("```json\n".data ++ (l ++ "\n```".data)) =
      "```json\n".data ++ (l ++ "\n```".data) := by
    rw [hw]
    have := stripL_eq_self_of '`' '`' (("``json\n".data ++ l) ++ "\n``".data)
      (by decide) (by decide)
    simpa using this
  have hsplitj : ("```json\n".data : List Char) = fenceJson ++ ['\n'] := rfl
  have hjs : "```json\n".data ++ (l ++ "\n```".data) =
      fenceJson ++ ('\n' :: (l ++ "\n```".data)) := by
    rw [hsplitj, List.append_assoc, List.singleton_append]
  have hpre : hasPrefixL fenceJson ("```json\n".data ++ (l ++ "\n```".data)) = true := by
    show fenceJson.isPrefixOf ("```json\n".data ++ (l ++ "\n```".data)) = true
    rw [hjs]
    exact List.isPrefixOf_iff_prefix.mpr (List.prefix_append _ _)
  have hdrop7 : ("```json\n".data ++ (l ++ "\n```".data)).drop 7 =
      '\n' :: (l ++ "\n```".data) := by
    have h7 : fenceJson.length = 7 := rfl
    rw [hjs, ← h7, List.drop_left]
  -- the cleaned prefix step
  have hc1 : (("```json\n".data ++ (l ++ "\n```".data)).drop 7).dropWhile pyWs =
      (l ++ "\n```".data).dropWhile pyWs := by
    rw [hdrop7, List.dropWhile_cons, if_pos (by decide)]
  rcases hlt : l.dropWhile pyWs with _ | ⟨c, cs⟩
  · -- the text is all whitespace: both sides clean to the empty list
    have hsl : stripL l = [] := by
      rw [stripL, hlt]
      rfl
    have hrhs : cleanData l = [] := by
      rw [cleanData, hsl]
      rfl
    have hfl : (l ++ "\n```".data).dropWhile pyWs = fence3 := by
      rw [List.dropWhile_append, hlt]
      rfl
    rw [cleanData, hstrip0]
    simp only [hpre, if_true, hc1, hfl, hrhs]
    rfl
  · -- the text has a non-whitespace core `s`
    have hc : pyWs c = false := dropWhile_head_false pyWs l c cs hlt
    have hlcons : (l ++ "\n```".data).dropWhile pyWs =
        (c :: cs) ++ "\n```".data := by
      rw [List.dropWhile_append, hlt]
      simp
    obtain ⟨hdec, hws⟩ := stripEndL_decomp (c :: cs)
    have hs : stripL l = stripEndL (c :: cs) := by
      rw [stripL, hlt]
    -- `hasPrefixL fence3` fails on the fence-stripped middle
    have hsplit : (c :: cs) ++ "\n```".data =
        stripEndL (c :: cs) ++
          (((c :: cs).reverse.takeWhile pyWs).reverse ++ "\n```".data) := by
      rw [← List.append_assoc, hdec]
    have hmidpre : hasPrefixL fence3 ((c :: cs) ++ "\n```".data) = false := by
      rw [hsplit]
      rcases hwsf : ((c :: cs).reverse.takeWhile pyWs).reverse with _ | ⟨w, ws⟩
      · simp only [List.nil_append]
        exact fence3_prefix_append _ '\n' _ (by rw [← hs]; exact h1) (by decide)
      · simp only [List.cons_append]
        refine fence3_prefix_append _ w _ (by rw [← hs]; exact h1) ?_
        exact hws w (by rw [hwsf]; exact List.mem_cons_self w ws)
    have hmidpre7 : hasPrefixL fenceJson ((c :: cs) ++ "\n```".data) = false := by
      by_contra hcon
      have htrue : hasPrefixL fenceJson ((c :: cs) ++ "\n```".data) = true := by
        revert hcon
        cases hasPrefixL fenceJson ((c :: cs) ++ "\n```".data) <;> simp
      have hpref := List.isPrefixOf_iff_prefix.mp htrue
      have h3 : fence3 <+: fenceJson := by decide
      have hthis : hasPrefixL fence3 ((c :: cs) ++ "\n```".data) = true :=
        List.isPrefixOf_iff_prefix.mpr (h3.trans hpref)
      rw [hmidpre] at hthis
      exact Bool.noConfusion hthis
    -- the trailing fence is found and stripped back to `s`
    have hrevsplit : ((c :: cs) ++ "\n```".data).reverse =
        fence3 ++ ('\n' :: (c :: cs).reverse) := by
      rw [List.reverse_append]
      have hnl : ("\n```".data : List Char).reverse = fence3 ++ ['\n'] := rfl
      rw [hnl, List.append_assoc, List.singleton_append]
    have hsufx : hasSuffixL fence3 ((c :: cs) ++ "\n```".data) = true := by
      show (fence3.reverse).isPrefixOf (((c :: cs) ++ "\n```".data).reverse) = true
      rw [hrevsplit]
      have hrf : fence3.reverse = fence3 := by decide
      rw [hrf]
      exact List.isPrefixOf_iff_prefix.mpr (List.prefix_append _ _)
    have hdrop3 : (((c :: cs) ++ "\n```".data).reverse).drop 3 =
        '\n' :: (c :: cs).reverse := by
      rw [hrevsplit]
      have h3 : fence3.length = 3 := rfl
      rw [← h3, List.drop_left]
    have htail : ((((c :: cs) ++ "\n```".data).reverse).drop 3).dropWhile pyWs =
        (stripEndL (c :: cs)).reverse := by
      rw [hdrop3, List.dropWhile_cons, if_pos (by decide)]
      conv_lhs => rw [← hdec]
      rw [List.reverse_append]
      rw [dropWhile_append_all pyWs _ _ (by
        intro x hx
        rw [List.mem_reverse, List.mem_reverse] at hx
        exact hws x (List.mem_reverse.mpr hx))]
      rw [stripEndL, List.reverse_reverse, dropWhile_idem]
    -- assemble the left-hand side
    have hlhs : cleanData ("```json\n".data ++ (l ++ "\n```".data)) =
        stripEndL (c :: cs) := by
      rw [cleanData, hstrip0]
      simp only [hpre, if_true, hc1, hlcons, hmidpre, Bool.false_eq_true, if_false]
      have hsufx' : hasSuffixL fence3 (c :: cs ++ ['\n', '`', '`', '`']) = true := hsufx
      have htail' : List.dropWhile pyWs
          (List.drop 3 (c :: cs ++ ['\n', '`', '`', '`']).reverse) =
          (stripEndL (c :: cs)).reverse := htail
      simp only [hsufx', if_true, htail', List.reverse_reverse]
    -- assemble the right-hand side
    have hpre7s : hasPrefixL fenceJson (stripL l) = false := by
      by_contra hcon
      have htrue : hasPrefixL fenceJson (stripL l) = true := by
        revert hcon
        cases hasPrefixL fenceJson (stripL l) <;> simp
      have hpref := List.isPrefixOf_iff_prefix.mp htrue
      have h3 : fence3 <+: fenceJson := by decide
      have hthis : hasPrefixL fence3 (stripL l) = true :=
        List.isPrefixOf_iff_prefix.mpr (h3.trans hpref)
      rw [h1] at hthis
      exact Bool.noConfusion hthis
    have hrhs : cleanData l = stripL l := by
      rw [cleanData]
      simp only [hpre7s, h1, h2, Bool.false_eq_true, if_false]
    rw [hlhs, hrhs, hs]

/-- C6, counterexample.  For the text `"[]\n```"` — which itself ends in a
fence — wrapping changes the outcome: the wrapped response cleans to
`"[]\n```"`, which fails to parse, while the unwrapped response cleans to
`"[]"`, which parses to the empty array. -/
theorem wrap_parse_counterexample :
    jsonLoads (cleanResponse (wrapJsonFence "[]\n```")) = none ∧
    jsonLoads (cleanResponse "[]\n```") = some (Json.arr []) :=
  ⟨rfl, rfl⟩

/-- C6, amended.  For every text whose stripped form neither starts nor ends
with a fence marker, the fence-stripping cleanup of the ```` ```json ````
wrapped response equals the cleanup of the unwrapped response, so JSON
parsing produces the identical outcome on both. -/
theorem wrap_parse_equiv (t : String)
    (h1 : hasPrefixL fence3 (stripL t.data) = false)
    (h2 : hasSuffixL fence3 (stripL t.data) = false) :
    cleanResponse (wrapJsonFence t) = cleanResponse t ∧
    jsonLoads (cleanResponse (wrapJsonFence t)) = jsonLoads (cleanResponse t) := by
  have hdata : (wrapJsonFence t).data = "```json\n".data ++ (t.data ++ "\n```".data) := by
    rw [wrapJsonFence]
    rw [String.data_append, String.data_append, List.append_assoc]
  have hclean : cleanResponse (wrapJsonFence t) = cleanResponse t := by
    rw [cleanResponse, cleanResponse, hdata, cleanData_wrap t.data h1 h2]
  exact ⟨hclean, by rw [hclean]⟩

/-- Witness for C6 at the concrete text `"[1]"`. -/
theorem wrap_parse_equiv_witness :
    cleanResponse (wrapJsonFence "[1]") = cleanResponse "[1]" ∧
    jsonLoads (cleanResponse (wrapJsonFence "[1]")) = jsonLoads (cleanResponse "[1]") :=
  wrap_parse_equiv "[1]" (by decide) (by decide)

theorem rowGet_cons_same (k : String) (v : Cell) (t : Row) :
    rowGet ((k, v) :: t) k = some v := by
  simp [rowGet, List.lookup]

theorem rowGet_cons_ne (a : String × Cell) (t : Row) (k : String) (h : ¬ k = a.1) :
    rowGet (a :: t) k = rowGet t k := by
  cases a with
  | mk a1 a2 =>
    simp only at h
    have hb : (k == a1) = false := beq_eq_false_iff_ne.mpr h
    simp [rowGet, List.lookup, hb]

theorem rowGet_mapReplace_same (d : Row) (k : String) (v : Cell)
    (h : d.any (fun p => p.1 = k) = true) :
    rowGet (d.map fun p => if p.1 = k then (k, v) else p) k = some v := by
  induction d with
  | nil => simp at h
  | cons a t ih =>
    by_cases ha : a.1 = k
    · simp only [List.map_cons, if_pos ha]
      exact rowGet_cons_same k v _
    · simp only [List.map_cons, if_neg ha]
      have hh : t.any (fun p => p.1 = k) = true := by
        simp only [List.any_cons, Bool.or_eq_true, decide_eq_true_eq] at h
        rcases h with h | h
        · exact absurd h ha
        · exact h
      rw [rowGet_cons_ne a _ k (fun hk => ha hk.symm)]
      exact ih hh

theorem rowGet_mapReplace_ne (d : Row) (k : String) (v : Cell) (k' : String)
    (h : ¬ k' = k) :
    rowGet (d.map fun p => if p.1 = k then (k, v) else p) k' = rowGet d k' := by
  induction d with
  | nil => rfl
  | cons a t ih =>
    by_cases ha : a.1 = k
    · simp only [List.map_cons, if_pos ha]
      rw [rowGet_cons_ne (k, v) _ k' h, rowGet_cons_ne a _ k' (fun hh => h (hh.trans ha))]
      exact ih
    · simp only [List.map_cons, if_neg ha]
      by_cases hk : k' = a.1
      · cases a with
        | mk a1 a2 =>
          simp only at hk
          subst hk
          rw [rowGet_cons_same, rowGet_cons_same]
      · rw [rowGet_cons_ne a _ k' hk, rowGet_cons_ne a _ k' hk]
        exact ih

theorem rowGet_eq_none_of_not_any (d : Row) (k : String)
    (h : d.any (fun p => p.1 = k) = false) : rowGet d k = none := by
  induction d with
  | nil => rfl
  | cons a t ih =>
    simp only [List.any_cons, Bool.or_eq_false_iff, decide_eq_false_iff_not] at h
    rw [rowGet_cons_ne a _ k (fun hk => h.1 hk.symm)]
    exact ih (by simp [h.2])

theorem rowGet_setField_same (d : Row) (k : String) (v : Cell) :
    rowGet (setField d k v) k = some v := by
  rw [setField]
  by_cases hany : d.any (fun p => p.1 = k) = true
  · rw [if_pos hany]
    exact rowGet_mapReplace_same d k v hany
  · rw [if_neg hany]
    have hnone : rowGet d k = none :=
      rowGet_eq_none_of_not_any d k (by revert hany; cases d.any (fun p => p.1 = k) <;> simp)
    rw [rowGet, List.lookup_append]
    rw [rowGet] at hnone
    rw [hnone]
    simp [List.lookup]

theorem rowGet_setField_ne (d : Row) (k : String) (v : Cell) (k' : String)
    (h : ¬ k' = k) :
    rowGet (setField d k v) k' = rowGet d k' := by
  rw [setField]
  by_cases hany : d.any (fun p => p.1 = k) = true
  · rw [if_pos hany]
    exact rowGet_mapReplace_ne d k v k' h
  · rw [if_neg hany]
    rw [rowGet, List.lookup_append]
    have h2 : List.lookup k' [(k, v)] = none := by
      have hb : (k' == k) = false := beq_eq_false_iff_ne.mpr h
      simp [List.lookup, hb]
    rw [h2]
    rw [rowGet]
    cases List.lookup k' d <;> rfl

theorem rowGet_dropKeys (ks : List String) (r : Row) (k : String)
    (h : ks.contains k = false) :
    rowGet (dropKeys ks r) k = rowGet r k := by
  induction r with
  | nil => rfl
  | cons a t ih =>
    rw [dropKeys, List.filter_cons]
    by_cases hk : k = a.1
    · have ha : (!(ks.contains a.1)) = true := by
        rw [← hk, h]
        rfl
      rw [if_pos ha]
      cases a with
      | mk a1 a2 =>
        simp only at hk
        subst hk
        rw [rowGet_cons_same, rowGet_cons_same]
    · by_cases ha : (!(ks.contains a.1)) = true
      · rw [if_pos ha, rowGet_cons_ne a _ k hk, rowGet_cons_ne a _ k hk]
        exact ih
      · rw [if_neg ha, rowGet_cons_ne a _ k hk]
        exact ih

/-- With no matching document, `update_one` is a no-op reporting zero. -/
theorem updateFirst_none (p : Row → Bool) (f : Row → Row) (l : List Row)
    (h : ∀ x ∈ l, p x = false) : updateFirst p f l = (l, 0) := by
  induction l with
  | nil => rfl
  | cons d t ih =>
    rw [updateFirst]
    rw [h d (List.mem_cons_self d t)]
    simp only [Bool.false_eq_true, if_false]
    rw [ih fun x hx => h x (List.mem_cons_of_mem d hx)]

/-- `update_one` updates exactly the first matching document. -/
theorem updateFirst_append (p : Row → Bool) (f : Row → Row) (pre : List Row)
    (d : Row) (post : List Row) (hpre : ∀ x ∈ pre, p x = false)
    (hd : p d = true) :
    updateFirst p f (pre ++ d :: post) =
      (pre ++ f d :: post, if f d = d then 0 else 1) := by
  induction pre with
  | nil =>
    simp only [List.nil_append]
    rw [updateFirst, hd]
    simp
  | cons a t ih =>
    simp only [List.cons_append]
    rw [updateFirst, hpre a (List.mem_cons_self a t)]
    simp only [Bool.false_eq_true, if_false]
    rw [ih fun x hx => hpre x (List.mem_cons_of_mem a hx)]

/-- The first match of `find?` along the same decomposition. -/
theorem find?_first (p : Row → Bool) (pre : List Row) (d : Row) (post : List Row)
    (hpre : ∀ x ∈ pre, p x = false) (hd : p d = true) :
    (pre ++ d :: post).find? p = some d := by
  induction pre with
  | nil =>
    simp only [List.nil_append]
    exact List.find?_cons_of_pos _ hd
  | cons a t ih =>
    simp only [List.cons_append]
    rw [List.find?_cons_of_neg]
    · exact ih fun x hx => hpre x (List.mem_cons_of_mem a hx)
    · rw [hpre a (List.mem_cons_self a t)]
      simp

/-- C10.  `update_incident_assignment` touches only the first incident whose
`incident_id` matches: that document gets `assigned_to` and the
`_updated_at` audit field set, its status is rewritten to `"Assigned"` if
and only if it currently is `"Open"`, and every other field — and every
other document — is left unchanged; the call returns true exactly when a
matching document was modified (MongoDB's `modified_count`).  With no
matching incident the collection is unchanged and the call returns false. -/
theorem updateIncidentAssignment_frame (coll : List Row) (iid agent now : String) :
    ((∀ x ∈ coll, idMatches iid x = false) →
      updateIncidentAssignment coll iid agent now true = (coll, false)) ∧
    (∀ pre d post, coll = pre ++ d :: post →
      (∀ x ∈ pre, idMatches iid x = false) → idMatches iid d = true →
      ∃ d', updateIncidentAssignment coll iid agent now true =
          (pre ++ d' :: post, decide (¬ d' = d)) ∧
        rowGet d' "assigned_to" = some (Cell.val agent) ∧
        rowGet d' "_updated_at" = some (Cell.val now) ∧
        rowGet d' "status" = (if rowGet d "status" = some (Cell.val "Open")
          then some (Cell.val "Assigned") else rowGet d "status") ∧
        (∀ k, ¬ k = "assigned_to" → ¬ k = "_updated_at" → ¬ k = "status" →
          rowGet d' k = rowGet d k)) := by
  constructor
  · intro hnone
    have hfind : coll.find? (idMatches iid) = none :=
      List.find?_eq_none.mpr fun x hx => by rw [hnone x hx]; simp
    rw [updateIncidentAssignment]
    simp only [if_true, getIncidentById, hfind, Option.map_none']
    rw [updateFirst_none _ _ coll hnone]
    rfl
  · intro pre d post hcoll hpre hd
    subst hcoll
    have hfind : (pre ++ d :: post).find? (idMatches iid) = some d :=
      find?_first (idMatches iid) pre d post hpre hd
    have hmatch : rowGet d "incident_id" = some (Cell.val iid) := by
      have := hd
      rw [idMatches] at this
      exact of_decide_eq_true this
    have hproj : rowGet (dropKeys ["_id", "_ingested_at", "_source"] d) "incident_id" =
        some (Cell.val iid) := by
      rw [rowGet_dropKeys _ _ _ (by decide)]
      exact hmatch
    have hne : (dropKeys ["_id", "_ingested_at", "_source"] d).isEmpty = false := by
      cases hdk : dropKeys ["_id", "_ingested_at", "_source"] d with
      | nil =>
        rw [hdk] at hproj
        exact Option.noConfusion hproj
      | cons x xs => rfl
    have hst : rowGet (dropKeys ["_id", "_ingested_at", "_source"] d) "status" =
        rowGet d "status" := rowGet_dropKeys _ _ _ (by decide)
    by_cases hopen : rowGet d "status" = some (Cell.val "Open")
    · refine ⟨applySet d [("assigned_to", Cell.val agent), ("_updated_at", Cell.val now),
        ("status", Cell.val "Assigned")], ?_, ?_, ?_, ?_, ?_⟩
      · rw [updateIncidentAssignment]
        simp only [if_true, getIncidentById, hfind, Option.map_some']
        rw [if_pos]
        · rw [updateFirst_append _ _ pre d post hpre hd]
          by_cases hchange : applySet d [("assigned_to", Cell.val agent),
              ("_updated_at", Cell.val now), ("status", Cell.val "Assigned")] = d <;>
            simp [hchange]
        · constructor
          · rw [hne]
            simp
          · rw [hst]
            exact hopen
      · rw [applySet]
        simp only [List.foldl_cons, List.foldl_nil]
        rw [rowGet_setField_ne _ _ _ _ (by decide), rowGet_setField_ne _ _ _ _ (by decide)]
        exact rowGet_setField_same _ _ _
      · rw [applySet]
        simp only [List.foldl_cons, List.foldl_nil]
        rw [rowGet_setField_ne _ _ _ _ (by decide)]
        exact rowGet_setField_same _ _ _
      · rw [applySet]
        simp only [List.foldl_cons, List.foldl_nil]
        rw [if_pos hopen]
        exact rowGet_setField_same _ _ _
      · intro k h1 h2 h3
        rw [applySet]
        simp only [List.foldl_cons, List.foldl_nil]
        rw [rowGet_setField_ne _ _ _ _ h3, rowGet_setField_ne _ _ _ _ h2,
          rowGet_setField_ne _ _ _ _ h1]
    · refine ⟨applySet d [("assigned_to", Cell.val agent), ("_updated_at", Cell.val now)],
        ?_, ?_, ?_, ?_, ?_⟩
      · rw [updateIncidentAssignment]
        simp only [if_true, getIncidentById, hfind, Option.map_some']
        rw [if_neg]
        · rw [List.append_nil]
          rw [updateFirst_append _ _ pre d post hpre hd]
          by_cases hchange : applySet d [("assigned_to", Cell.val agent),
              ("_updated_at", Cell.val now)] = d <;>
            simp [hchange]
        · intro hcon
          rw [hst] at hcon
          exact hopen hcon.2
      · rw [applySet]
        simp only [List.foldl_cons, List.foldl_nil]
        rw [rowGet_setField_ne _ _ _ _ (by decide)]
        exact rowGet_setField_same _ _ _
      · rw [applySet]
        simp only [List.foldl_cons, List.foldl_nil]
        exact rowGet_setField_same _ _ _
      · rw [applySet]
        simp only [List.foldl_cons, List.foldl_nil]
        rw [if_neg hopen]
        rw [rowGet_setField_ne _ _ _ _ (by decide), rowGet_setField_ne _ _ _ _ (by decide)]
      · intro k h1 h2 h3
        rw [applySet]
        simp only [List.foldl_cons, List.foldl_nil]
        rw [rowGet_setField_ne _ _ _ _ h2, rowGet_setField_ne _ _ _ _ h1]

/-- Witness for C10 on the empty collection: no match, no change, `false`. -/
theorem updateIncidentAssignment_frame_witness :
    updateIncidentAssignment [] "INC1" "AGT007" "2026-01-02 03:04:05" true =
      ([], false) :=
  (updateIncidentAssignment_frame [] "INC1" "AGT007" "2026-01-02 03:04:05").1
    (by simp)

theorem mem_unionKeys_go (docs : List Row) (acc : List String) (c : String)
    (h : c ∈ acc ∨ ∃ d ∈ docs, c ∈ d.map Prod.fst) :
    c ∈ docs.foldl
      (fun acc r => acc ++ (r.map Prod.fst).filter (fun c => !(acc.contains c))) acc := by
  induction docs generalizing acc with
  | nil =>
    rcases h with h | ⟨d, hd, _⟩
    · exact h
    · cases hd
  | cons r t ih =>
    rw [List.foldl_cons]
    apply ih
    rcases h with hacc | ⟨d, hd, hc⟩
    · exact Or.inl (List.mem_append_left _ hacc)
    · rcases hd with _ | ⟨_, hd⟩
      · by_cases hin : c ∈ acc
        · exact Or.inl (List.mem_append_left _ hin)
        · refine Or.inl (List.mem_append_right _ (List.mem_filter.mpr ⟨hc, ?_⟩))
          simp [hin]
      · exact Or.inr ⟨d, hd, hc⟩

theorem mem_unionKeys (docs : List Row) (d : Row) (hd : d ∈ docs) (c : String)
    (hc : c ∈ d.map Prod.fst) : c ∈ unionKeys docs :=
  mem_unionKeys_go docs [] c (Or.inr ⟨d, hd, hc⟩)

theorem mem_keys_dropKeys (ks : List String) (r : Row) (c : String)
    (hc : c ∈ r.map Prod.fst) (hks : ks.contains c = false) :
    c ∈ (dropKeys ks r).map Prod.fst := by
  rcases List.mem_map.mp hc with ⟨p, hp, hfst⟩
  refine List.mem_map.mpr ⟨p, List.mem_filter.mpr ⟨hp, ?_⟩, hfst⟩
  rw [hfst, hks]
  rfl

theorem mem_wlFrame_cols (incidents : List Row) (d : Row) (hd : d ∈ incidents)
    (c : String) (hc : c ∈ d.map Prod.fst)
    (hmeta : (["_ingested_at", "_source"] : List String).contains c = false)
    (hid : ¬ c = "_id") :
    c ∈ (wlFrame incidents).cols := by
  have h1 : c ∈ (dropKeys ["_ingested_at", "_source"] d).map Prod.fst :=
    mem_keys_dropKeys _ _ _ hc hmeta
  have h2 : dropKeys ["_ingested_at", "_source"] d ∈ wlDocs incidents :=
    List.mem_map_of_mem _ hd
  have h3 : c ∈ unionKeys (wlDocs incidents) := mem_unionKeys _ _ h2 _ h1
  rw [wlFrame]
  by_cases hin : "_id" ∈ (pdFrame (wlDocs incidents)).cols
  · rw [if_pos hin]
    refine List.mem_filter.mpr ⟨h3, ?_⟩
    simp [hid]
  · rw [if_neg hin]
    exact h3

theorem wlFrame_length (incidents : List Row) :
    (wlFrame incidents).rows.length = incidents.length := by
  rw [wlFrame]
  by_cases hin : "_id" ∈ (pdFrame (wlDocs incidents)).cols
  · rw [if_pos hin]
    simp [dropCols, pdFrame, wlDocs]
  · rw [if_neg hin]
    simp [pdFrame, wlDocs]

/-- C9.  `get_workload` returns exactly the incidents that are unresolved
(status in `{"Open", "In Progress", "Assigned"}`) and unassigned
(`assigned_to` missing/`NaN` or the empty string), with the caller's row
limit applied only after this filtering: whenever every stored incident
document carries `status` and `assigned_to` fields, the result rows are the
frame rows — one per incident — filtered by the conjunction of the two
conditions and then truncated by the limit. -/
theorem getWorkload_spec (incidents : List Row) (limit : Option Nat)
    (h : ∀ d ∈ incidents, "status" ∈ d.map Prod.fst ∧ "assigned_to" ∈ d.map Prod.fst) :
    (wlFrame incidents).rows.length = incidents.length ∧
    (getWorkload incidents limit).rows =
      limTake limit ((wlFrame incidents).rows.filter
        fun r => statusUnresolved r && assignedEmpty r) := by
  refine ⟨wlFrame_length incidents, ?_⟩
  cases incidents with
  | nil =>
    have hrows : (wlFrame ([] : List Row)).rows = [] := rfl
    rw [hrows]
    cases limit with
    | none => rfl
    | some n =>
      rw [getWorkload]
      simp [limTake, List.take_nil]
  | cons d0 rest =>
    have hstatus : "status" ∈ (wlFrame (d0 :: rest)).cols :=
      mem_wlFrame_cols _ d0 (List.mem_cons_self d0 rest) _
        (h d0 (List.mem_cons_self d0 rest)).1 (by decide) (by decide)
    have hassigned : "assigned_to" ∈ (wlFrame (d0 :: rest)).cols :=
      mem_wlFrame_cols _ d0 (List.mem_cons_self d0 rest) _
        (h d0 (List.mem_cons_self d0 rest)).2 (by decide) (by decide)
    rw [getWorkload]
    rw [if_neg (by simp)]
    dsimp only
    rw [if_pos hstatus, if_pos hassigned]
    have hff : ((wlFrame (d0 :: rest)).rows.filter statusUnresolved).filter assignedEmpty =
        (wlFrame (d0 :: rest)).rows.filter
          (fun r => statusUnresolved r && assignedEmpty r) := by
      rw [List.filter_filter]
      exact List.filter_congr fun r _ => Bool.and_comm _ _
    cases limit with
    | none =>
      rw [pyHead, limTake]
      rw [dfFilter, dfFilter]
      exact hff
    | some n =>
      rw [pyHead, limTake]
      by_cases hn : n = 0
      · rw [if_neg (by simp [hn]), if_pos hn]
        rw [dfFilter, dfFilter]
        exact hff
      · rw [if_neg hn]
        by_cases hlen : n < ((wlFrame (d0 :: rest)).rows.filter statusUnresolved |>.filter assignedEmpty).length
        · rw [if_pos ⟨hn, by rw [dfFilter, dfFilter]; exact hlen⟩]
          rw [dfFilter, dfFilter]
          rw [hff]
        · rw [if_neg (by rw [dfFilter, dfFilter]; exact fun hc => hlen hc.2)]
          rw [dfFilter, dfFilter, hff]
          rw [List.take_of_length_le]
          rw [← hff]
          exact Nat.le_of_not_lt hlen

theorem map_eq_self_of {α : Type} (l : List α) (f : α → α)
    (h : ∀ a ∈ l, f a = a) : l.map f = l := by
  induction l with
  | nil => rfl
  | cons a t ih =>
    rw [List.map_cons, h a (List.mem_cons_self a t),
      ih fun x hx => h x (List.mem_cons_of_mem a hx)]

theorem keys_tab (cs : List String) (g : String → Cell) :
    (cs.map fun c => (c, g c)).map Prod.fst = cs := by
  rw [List.map_map]
  have : (Prod.fst ∘ fun c => (c, g c)) = id := funext fun c => rfl
  rw [this, List.map_id]

theorem rowGet_tab (cs : List String) (g : String → Cell) (c : String) :
    rowGet (cs.map fun c' => (c', g c')) c =
      if c ∈ cs then some (g c) else none := by
  induction cs with
  | nil => simp [rowGet, List.lookup]
  | cons a t ih =>
    by_cases hc : c = a
    · subst hc
      rw [List.map_cons, rowGet_cons_same]
      simp
    · rw [List.map_cons, rowGet_cons_ne (a, g a) _ c hc, ih]
      by_cases hmem : c ∈ t
      · rw [if_pos hmem, if_pos (List.mem_cons_of_mem a hmem)]
      · rw [if_neg hmem, if_neg (by
          intro hcon
          rcases List.mem_cons.mp hcon with h | h
          · exact hc h
          · exact hmem h)]

theorem exists_rowGet_of_mem_keys (r : Row) (k : String)
    (h : k ∈ r.map Prod.fst) : ∃ v, rowGet r k = some v := by
  induction r with
  | nil => cases h
  | cons a t ih =>
    by_cases hk : k = a.1
    · cases a with
      | mk a1 a2 =>
        simp only at hk
        subst hk
        exact ⟨a2, rowGet_cons_same _ _ _⟩
    · rw [rowGet_cons_ne a t k hk]
      apply ih
      rcases List.mem_cons.mp h with h | h
      · exact absurd h hk
      · exact h

theorem rowGet_eq_none_of_not_mem_keys (r : Row) (k : String)
    (h : ¬ k ∈ r.map Prod.fst) : rowGet r k = none := by
  induction r with
  | nil => rfl
  | cons a t ih =>
    have hk : ¬ k = a.1 := fun hh => h (by rw [hh]; exact List.mem_cons_self _ _)
    rw [rowGet_cons_ne a t k hk]
    exact ih fun hh => h (List.mem_cons_of_mem _ hh)

theorem rowGet_renameRow (r : Row) (src dst k : String) (h1 : ¬ k = src)
    (h2 : ¬ k = dst) :
    rowGet (r.map fun p => (if p.1 = src then dst else p.1, p.2)) k = rowGet r k := by
  induction r with
  | nil => rfl
  | cons a t ih =>
    by_cases ha : a.1 = src
    · rw [List.map_cons, if_pos ha]
      rw [rowGet_cons_ne (dst, a.2) _ k h2, rowGet_cons_ne a _ k (ha ▸ h1)]
      exact ih
    · rw [List.map_cons, if_neg ha]
      by_cases hk : k = a.1
      · cases a with
        | mk a1 a2 =>
          simp only at hk ha
          subst hk
          rw [rowGet_cons_same, rowGet_cons_same]
      · rw [rowGet_cons_ne (a.1, a.2) _ k hk, rowGet_cons_ne a _ k hk]
        exact ih

/-- Key lookup in a projected, renamed reference row. -/
theorem rowGet_rightRow_key (rdf : Df) (cols : List String) (src dst key : String)
    (hkc : key ∈ cols) (hsrc : ¬ key = src) (hdst : ¬ key = dst) (rr : Row) :
    rowGet ((cols.map fun c => (c, (rowGet rr c).getD Cell.na)).map
        fun p => (if p.1 = src then dst else p.1, p.2)) key =
      some ((rowGet rr key).getD Cell.na) := by
  rw [rowGet_renameRow _ src dst key hsrc hdst, rowGet_tab, if_pos hkc]

/-- `mergeLeft` with no overlapping non-key columns: no suffixing occurs. -/
theorem mergeLeft_eq (left right : Df) (key : String)
    (hov : ∀ c ∈ right.cols, ¬ c = key → ¬ c ∈ left.cols) :
    mergeLeft left right key =
      { cols := left.cols ++ rightDataOf right key
        rows := left.rows.flatMap fun lrow =>
          match right.rows.filter (fun rrow => rowGet rrow key = rowGet lrow key) with
          | [] => [lrow ++ (rightDataOf right key).map (fun c => (c, Cell.na))]
          | ms => ms.map fun rrow =>
              lrow ++ (rightDataOf right key).map
                (fun c => (c, (rowGet rrow c).getD Cell.na)) } := by
  have hovl : ((left.cols.filter (fun c => c ≠ key)).filter
      (fun c => (right.cols.filter (fun c => c ≠ key)).contains c)) = [] := by
    apply List.filter_eq_nil_iff.mpr
    intro c hc hcon
    have hcl : c ∈ left.cols := (List.mem_filter.mp hc).1
    have hcr : c ∈ right.cols.filter (fun c => c ≠ key) := by
      simpa using hcon
    have hmem := List.mem_filter.mp hcr
    exact hov c hmem.1 (by simpa using hmem.2) hcl
  have hsfx : ∀ suf c, sufxd [] suf c = c := by
    intro suf c
    rw [sufxd, if_neg (by simp)]
  have hrowfun : ∀ lrow : Row,
      (lrow.map fun p => (if p.1 = key then p.1 else sufxd [] "_x" p.1, p.2)) = lrow := by
    intro lrow
    apply map_eq_self_of
    intro p _
    by_cases hp : p.1 = key
    · rw [if_pos hp]
    · rw [if_neg hp, hsfx]
  rw [mergeLeft]
  simp only [hovl]
  congr 1
  · rw [rightDataOf]
    congr 1
    · apply map_eq_self_of
      intro c _
      by_cases hc : c = key
      · rw [if_pos hc]
      · rw [if_neg hc, hsfx]
    · apply map_eq_self_of
      intro c _
      exact hsfx _ c
  · rw [rightDataOf]
    have hf : (fun lrow =>
        match right.rows.filter (fun rrow => rowGet rrow key = rowGet lrow key) with
        | [] => [(lrow.map fun p => (if p.1 = key then p.1 else sufxd [] "_x" p.1, p.2)) ++
            (right.cols.filter (fun c => c ≠ key)).map
              (fun c => (sufxd [] "_y" c, Cell.na))]
        | ms => ms.map fun rrow =>
            (lrow.map fun p => (if p.1 = key then p.1 else sufxd [] "_x" p.1, p.2)) ++
              (right.cols.filter (fun c => c ≠ key)).map
                (fun c => (sufxd [] "_y" c, (rowGet rrow c).getD Cell.na))) =
      (fun lrow =>
        match right.rows.filter (fun rrow => rowGet rrow key = rowGet lrow key) with
        | [] => [lrow ++ (right.cols.filter (fun c => c ≠ key)).map (fun c => (c, Cell.na))]
        | ms => ms.map fun rrow =>
            lrow ++ (right.cols.filter (fun c => c ≠ key)).map
              (fun c => (c, (rowGet rrow c).getD Cell.na))) := by
      funext lrow
      cases hfil : right.rows.filter (fun rrow => rowGet rrow key = rowGet lrow key) with
      | nil =>
        simp only [hfil, hrowfun lrow]
        have hm : (right.cols.filter (fun c => c ≠ key)).map
            (fun c => (sufxd [] "_y" c, Cell.na)) =
            (right.cols.filter (fun c => c ≠ key)).map (fun c => (c, Cell.na)) :=
          List.map_congr_left fun c _ => by rw [hsfx]
        rw [hm]
      | cons rr ms =>
        simp only [hfil, hrowfun lrow]
        apply List.map_congr_left
        intro rrow _
        have hm : (right.cols.filter (fun c => c ≠ key)).map
            (fun c => (sufxd [] "_y" c, (rowGet rrow c).getD Cell.na)) =
            (right.cols.filter (fun c => c ≠ key)).map
              (fun c => (c, (rowGet rrow c).getD Cell.na)) :=
          List.map_congr_left fun c _ => by rw [hsfx]
        rw [hm]
    rw [hf]

theorem flatMap_eq_map (f : Row → List Row) (g : Row → Row) (l : List Row)
    (h : ∀ r ∈ l, f r = [g r]) : l.flatMap f = l.map g := by
  induction l with
  | nil => rfl
  | cons a t ih =>
    rw [List.flatMap_cons, List.map_cons, h a (List.mem_cons_self a t),
      ih fun x hx => h x (List.mem_cons_of_mem a hx)]
    rfl

/-- With at most one right row per key, a no-overlap left join is a pure
columnwise extension. -/
theorem mergeLeft_extend (left right : Df) (key : String)
    (hov : ∀ c ∈ right.cols, ¬ c = key → ¬ c ∈ left.cols)
    (huniq : OneRowPerKey right key) :
    mergeLeft left right key =
      extendDf left (rightDataOf right key) (refExtra right key) := by
  rw [mergeLeft_eq left right key hov, extendDf]
  congr 1
  apply flatMap_eq_map
  intro r _
  rcases hfil : right.rows.filter (fun rrow => rowGet rrow key = rowGet r key) with
    _ | ⟨rr, rest⟩
  · simp only [refExtra, hfil]
  · have hlen := huniq (rowGet r key)
    rw [hfil] at hlen
    have hrest : rest = [] := by
      cases rest with
      | nil => rfl
      | cons a b => simp at hlen
    subst hrest
    simp only [refExtra, hfil, List.map_cons, List.map_nil]

theorem extendDf_extendDf (df : Df) (ec1 ec2 : List String) (f1 f2 : Row → Row) :
    extendDf (extendDf df ec1 f1) ec2 f2 =
      extendDf df (ec1 ++ ec2) (fun r => f1 r ++ f2 (r ++ f1 r)) := by
  rw [extendDf, extendDf, extendDf]
  congr 1
  · rw [List.append_assoc]
  · rw [List.map_map]
    apply List.map_congr_left
    intro r _
    simp [List.append_assoc]

/-- Dropping the empty column set is the identity. -/
theorem dropCols_nil (df : Df) : dropCols df [] = df := by
  rw [dropCols]
  cases df with
  | mk cols rows =>
    congr 1
    · exact List.filter_eq_self.mpr fun c _ => rfl
    · apply map_eq_self_of
      intro r _
      exact List.filter_eq_self.mpr fun p _ => rfl

/-- For a disjoint extension of a well-formed frame, dropping the added
columns recovers the original frame. -/
theorem dropCols_extend (df : Df) (ec : List String) (f : Row → Row)
    (hwf : df.Wf) (hdisj : ∀ c ∈ ec, ¬ c ∈ df.cols)
    (hf : ∀ r ∈ df.rows, (f r).map Prod.fst = ec) :
    dropCols (extendDf df ec f) (addedCols df (extendDf df ec f)) = df := by
  have hadded : addedCols df (extendDf df ec f) = ec := by
    rw [addedCols, extendDf]
    rw [List.filter_append]
    have hl : df.cols.filter (fun c => !(df.cols.contains c)) = [] := by
      apply List.filter_eq_nil_iff.mpr
      intro c hc hcon
      simp [hc] at hcon
    have hr : ec.filter (fun c => !(df.cols.contains c)) = ec := by
      apply List.filter_eq_self.mpr
      intro c hc
      simp [hdisj c hc]
    rw [hl, hr, List.nil_append]
  rw [hadded, dropCols, extendDf]
  simp only
  have hcols : (df.cols ++ ec).filter (fun c => !(ec.contains c)) = df.cols := by
    rw [List.filter_append]
    have hl : df.cols.filter (fun c => !(ec.contains c)) = df.cols := by
      apply List.filter_eq_self.mpr
      intro c hc
      have : ¬ c ∈ ec := fun hcon => hdisj c hcon hc
      simp [this]
    have hr : ec.filter (fun c => !(ec.contains c)) = [] := by
      apply List.filter_eq_nil_iff.mpr
      intro c hc hcon
      simp [hc] at hcon
    rw [hl, hr, List.append_nil]
  have hrows : (df.rows.map fun r => r ++ f r).map
      (fun r => r.filter fun p => !(ec.contains p.1)) = df.rows := by
    rw [List.map_map]
    apply map_eq_self_of
    intro r hr
    simp only [Function.comp]
    rw [List.filter_append]
    have hl : r.filter (fun p => !(ec.contains p.1)) = r := by
      apply List.filter_eq_self.mpr
      intro p hp
      have hpk : p.1 ∈ df.cols := by
        rw [← hwf r hr]
        exact List.mem_map_of_mem Prod.fst hp
      have : ¬ p.1 ∈ ec := fun hcon => hdisj p.1 hcon hpk
      simp [this]
    have hrt : (f r).filter (fun p => !(ec.contains p.1)) = [] := by
      apply List.filter_eq_nil_iff.mpr
      intro p hp hcon
      have hpk : p.1 ∈ ec := by
        rw [← hf r hr]
        exact List.mem_map_of_mem Prod.fst hp
      simp [hpk] at hcon
    rw [hl, hrt, List.append_nil]
  rw [hcols, hrows]

/-- The key column of a projected-and-renamed reference row carries the
original key value, for a well-formed reference table. -/
theorem rowGet_rightRows (rdf : Df) (cols : List String) (src dst key : String)
    (hkc : key ∈ cols) (hsrc : ¬ key = src) (hdst : ¬ key = dst)
    (hwf : rdf.Wf) (hkey : key ∈ rdf.cols) (rr : Row) (hrr : rr ∈ rdf.rows) :
    ∃ cell, rowGet rr key = some cell ∧
      rowGet ((cols.map fun c => (c, (rowGet rr c).getD Cell.na)).map
          fun p => (if p.1 = src then dst else p.1, p.2)) key = some cell := by
  obtain ⟨cell, hcell⟩ := exists_rowGet_of_mem_keys rr key (by rw [hwf rr hrr]; exact hkey)
  refine ⟨cell, hcell, ?_⟩
  rw [rowGet_rightRow_key rdf cols src dst key hkc hsrc hdst rr, hcell]
  rfl

/-- One-row-per-key transfers from a well-formed reference table to its
projected, renamed form. -/
theorem uniq_rightTable (rdf : Df) (cols : List String) (src dst key : String)
    (hkc : key ∈ cols) (hsrc : ¬ key = src) (hdst : ¬ key = dst)
    (hwf : rdf.Wf) (hkey : key ∈ rdf.cols)
    (huniq : OneRowPerKey rdf key) :
    OneRowPerKey (renameCol (project rdf cols) src dst) key := by
  intro v
  have hrows : (renameCol (project rdf cols) src dst).rows =
      rdf.rows.map (fun rr =>
        (cols.map fun c => (c, (rowGet rr c).getD Cell.na)).map
          fun p => (if p.1 = src then dst else p.1, p.2)) := by
    rw [renameCol, project]
    dsimp only
    rw [List.map_map]
    rfl
  rw [hrows, List.filter_map, List.length_map]
  cases v with
  | none =>
    have hnil : rdf.rows.filter ((fun r' => decide (rowGet r' key = none)) ∘
        (fun rr => (cols.map fun c => (c, (rowGet rr c).getD Cell.na)).map
          fun p => (if p.1 = src then dst else p.1, p.2))) = [] := by
      apply List.filter_eq_nil_iff.mpr
      intro rr hrr hcon
      obtain ⟨cell, _, hget⟩ :=
        rowGet_rightRows rdf cols src dst key hkc hsrc hdst hwf hkey rr hrr
      simp only [Function.comp, hget] at hcon
      exact Option.noConfusion (of_decide_eq_true hcon)
    rw [hnil]
    exact Nat.zero_le 1
  | some cell =>
    have hcong : rdf.rows.filter ((fun r' => decide (rowGet r' key = some cell)) ∘
        (fun rr => (cols.map fun c => (c, (rowGet rr c).getD Cell.na)).map
          fun p => (if p.1 = src then dst else p.1, p.2))) =
        rdf.rows.filter (fun rr => rowGet rr key = some cell) := by
      apply List.filter_congr
      intro rr hrr
      obtain ⟨c0, hc0, hget⟩ :=
        rowGet_rightRows rdf cols src dst key hkc hsrc hdst hwf hkey rr hrr
      simp only [Function.comp, hget, hc0]
    rw [hcong]
    exact huniq (some cell)

theorem cols_extendDf (df : Df) (ec : List String) (f : Row → Row) :
    (extendDf df ec f).cols = df.cols ++ ec := rfl

theorem mem_extendDf_rows (df : Df) (ec : List String) (f : Row → Row) (r : Row)
    (hr : r ∈ df.rows) : r ++ f r ∈ (extendDf df ec f).rows := by
  rw [extendDf]
  exact List.mem_map_of_mem _ hr

/-- A frame adds no columns over itself. -/
theorem addedCols_self (df : Df) : addedCols df df = [] := by
  rw [addedCols]
  apply List.filter_eq_nil_iff.mpr
  intro c hc hcon
  simp [hc] at hcon

/-- The columns a disjoint extension adds are exactly the extension
columns. -/
theorem addedCols_extend (df : Df) (ec : List String) (f : Row → Row)
    (hdisj : ∀ c ∈ ec, ¬ c ∈ df.cols) :
    addedCols df (extendDf df ec f) = ec := by
  rw [addedCols, extendDf]
  rw [List.filter_append]
  have hl : df.cols.filter (fun c => !(df.cols.contains c)) = [] := by
    apply List.filter_eq_nil_iff.mpr
    intro c hc hcon
    simp [hc] at hcon
  have hr : ec.filter (fun c => !(df.cols.contains c)) = ec := by
    apply List.filter_eq_self.mpr
    intro c hc
    simp [hdisj c hc]
  rw [hl, hr, List.nil_append]

/-- The keys of a left join's per-row extension are the right side's
non-key columns, match or no match. -/
theorem keys_refExtra (right : Df) (key : String) (r : Row) :
    (refExtra right key r).map Prod.fst = rightDataOf right key := by
  rcases hfil : right.rows.filter (fun rrow => rowGet rrow key = rowGet r key) with
    _ | ⟨rr, rest⟩
  · simp only [refExtra, hfil]
    exact keys_tab _ _
  · simp only [refExtra, hfil]
    exact keys_tab _ _

/-- With no matching right row, every cell of the join extension is the
missing-value marker. -/
theorem refExtra_nomatch (right : Df) (key : String) (r : Row)
    (h : right.rows.filter (fun rrow => rowGet rrow key = rowGet r key) = []) :
    ∀ p ∈ refExtra right key r, p.2 = Cell.na := by
  intro p hp
  simp only [refExtra, h] at hp
  obtain ⟨c, hc, rfl⟩ := List.mem_map.mp hp
  rfl

/-- The rows of a projected, renamed reference table, spelled out. -/
theorem rightTable_rows (rdf : Df) (cols : List String) (src dst : String) :
    (renameCol (project rdf cols) src dst).rows =
      rdf.rows.map (fun rr => (cols.map fun c => (c, (rowGet rr c).getD Cell.na)).map
        fun p => (if p.1 = src then dst else p.1, p.2)) := by
  rw [renameCol, project]
  dsimp only
  rw [List.map_map]
  rfl

/-- A row whose key value differs from every reference key matches no row
of the projected, renamed reference table. -/
theorem rightTable_filter_nil (rdf : Df) (cols : List String) (src dst key : String)
    (hkc : key ∈ cols) (hsrc : ¬ key = src) (hdst : ¬ key = dst) (r : Row)
    (hnc : ∀ rr ∈ rdf.rows,
      ¬ (rowGet rr key).getD Cell.na = (rowGet r key).getD Cell.na) :
    (renameCol (project rdf cols) src dst).rows.filter
      (fun rrow => rowGet rrow key = rowGet r key) = [] := by
  apply List.filter_eq_nil_iff.mpr
  intro rrow hmem hcon
  rw [rightTable_rows] at hmem
  obtain ⟨rr, hrr, rfl⟩ := List.mem_map.mp hmem
  replace hcon := of_decide_eq_true hcon
  rw [rowGet_rightRow_key rdf cols src dst key hkc hsrc hdst rr] at hcon
  cases hrk : rowGet r key with
  | none =>
    rw [hrk] at hcon
    exact Option.noConfusion hcon
  | some vr =>
    rw [hrk] at hcon
    apply hnc rr hrr
    rw [hrk]
    exact Option.some.inj hcon

theorem rowGet_append_of_some (r ext : Row) (c : String) (v : Cell)
    (h : rowGet r c = some v) : rowGet (r ++ ext) c = some v := by
  induction r with
  | nil => exact Option.noConfusion h
  | cons a t ih =>
    by_cases hc : c = a.1
    · cases a with
      | mk a1 a2 =>
        simp only at hc
        subst hc
        rw [rowGet_cons_same] at h
        rw [List.cons_append, rowGet_cons_same]
        exact h
    · rw [rowGet_cons_ne a t c hc] at h
      rw [List.cons_append, rowGet_cons_ne a (t ++ ext) c hc]
      exact ih h

theorem rowGet_append_of_none (r ext : Row) (c : String)
    (h : rowGet r c = none) : rowGet (r ++ ext) c = rowGet ext c := by
  induction r with
  | nil => rfl
  | cons a t ih =>
    by_cases hc : c = a.1
    · cases a with
      | mk a1 a2 =>
        simp only at hc
        subst hc
        rw [rowGet_cons_same] at h
        exact Option.noConfusion h
    · rw [rowGet_cons_ne a t c hc] at h
      rw [List.cons_append, rowGet_cons_ne a (t ++ ext) c hc]
      exact ih h

/-- Lookup of a column present in the left part of an appended row hits
the left part. -/
theorem rowGet_append_left (r ext : Row) (c : String)
    (h : c ∈ r.map Prod.fst) : rowGet (r ++ ext) c = rowGet r c := by
  obtain ⟨v, hv⟩ := exists_rowGet_of_mem_keys r c h
  rw [hv]
  exact rowGet_append_of_some r ext c v hv

theorem catKey_mem (cdf : Df) : "category_id" ∈ catColsSel cdf := by
  rw [catColsSel]
  exact List.mem_append_left _ (List.mem_cons_self _ _)

theorem svcKey_mem (sdf : Df) : "service_id" ∈ svcColsSel sdf := by
  rw [svcColsSel]
  exact List.mem_append_left _ (List.mem_cons_self _ _)

/-- The columns of the right side of the category merge. -/
theorem mem_catRight_cols (cdf : Df) (c : String) (h : c ∈ (catRight cdf).cols) :
    c = "category_id" ∨ c = "category_name" ∨ c = "path" := by
  rw [catRight, renameCol, project] at h
  dsimp only at h
  rcases List.mem_map.mp h with ⟨c0, hc0, hren⟩
  rw [catColsSel] at hc0
  rcases List.mem_append.mp hc0 with h0 | h0
  · rcases List.mem_cons.mp h0 with rfl | h0
    · rw [if_neg (by decide : ¬ ("category_id" : String) = "name")] at hren
      exact Or.inl hren.symm
    · rcases List.mem_cons.mp h0 with rfl | h0
      · rw [if_pos rfl] at hren
        exact Or.inr (Or.inl hren.symm)
      · cases h0
  · by_cases hp : "path" ∈ cdf.cols
    · rw [if_pos hp] at h0
      rcases List.mem_cons.mp h0 with rfl | h0
      · rw [if_neg (by decide : ¬ ("path" : String) = "name")] at hren
        exact Or.inr (Or.inr hren.symm)
      · cases h0
    · rw [if_neg hp] at h0
      cases h0

/-- The columns of the right side of the service merge. -/
theorem mem_svcRight_cols (sdf : Df) (c : String) (h : c ∈ (svcRight sdf).cols) :
    c = "service_id" ∨ c = "service_name" ∨ c = "criticality" := by
  rw [svcRight, renameCol, project] at h
  dsimp only at h
  rcases List.mem_map.mp h with ⟨c0, hc0, hren⟩
  rw [svcColsSel] at hc0
  rcases List.mem_append.mp hc0 with h0 | h0
  · rcases List.mem_cons.mp h0 with rfl | h0
    · rw [if_neg (by decide : ¬ ("service_id" : String) = "name")] at hren
      exact Or.inl hren.symm
    · rcases List.mem_cons.mp h0 with rfl | h0
      · rw [if_pos rfl] at hren
        exact Or.inr (Or.inl hren.symm)
      · cases h0
  · by_cases hp : "criticality" ∈ sdf.cols
    · rw [if_pos hp] at h0
      rcases List.mem_cons.mp h0 with rfl | h0
      · rw [if_neg (by decide : ¬ ("criticality" : String) = "name")] at hren
        exact Or.inr (Or.inr hren.symm)
      · cases h0
    · rw [if_neg hp] at h0
      cases h0

/-- The category step either leaves the frame unchanged (no table, or a
guard fails) or is a pure columnwise extension by the joined category
columns, provided the reference table is well formed with one row per key
and the frame does not already carry the derived columns. -/
theorem enrichCat_shape (df : Df) (cats : Option Df)
    (hcats : ∀ cdf, cats = some cdf → cdf.Wf ∧ OneRowPerKey cdf "category_id")
    (hd1 : ¬ "category_name" ∈ df.cols) (hd2 : ¬ "path" ∈ df.cols) :
    enrichWithCategories df cats = df ∨
      ∃ cdf, cats = some cdf ∧
        enrichWithCategories df cats =
          extendDf df (rightDataOf (catRight cdf) "category_id")
            (refExtra (catRight cdf) "category_id") ∧
        (∀ c ∈ rightDataOf (catRight cdf) "category_id",
          c = "category_name" ∨ c = "path") := by
  cases cats with
  | none => exact Or.inl rfl
  | some cdf =>
    by_cases g1 : "category_id" ∈ df.cols ∧ "category_id" ∈ cdf.cols
    · by_cases g2 : (catColsSel cdf).all (fun c => cdf.cols.contains c) = true
      · obtain ⟨hcwf, huniq⟩ := hcats cdf rfl
        refine Or.inr ⟨cdf, rfl, ?_, ?_⟩
        · simp only [enrichWithCategories]
          rw [if_pos g1, if_pos g2]
          apply mergeLeft_extend
          · intro c hc hne
            rcases mem_catRight_cols cdf c hc with rfl | rfl | rfl
            · exact absurd rfl hne
            · exact hd1
            · exact hd2
          · rw [catRight]
            exact uniq_rightTable cdf (catColsSel cdf) "name" "category_name"
              "category_id" (catKey_mem cdf) (by decide) (by decide) hcwf g1.2 huniq
        · intro c hc
          rw [rightDataOf] at hc
          have hc1 := (List.mem_filter.mp hc).1
          have hc2 : ¬ c = "category_id" := by
            simpa using (List.mem_filter.mp hc).2
          rcases mem_catRight_cols cdf c hc1 with rfl | rfl | rfl
          · exact absurd rfl hc2
          · exact Or.inl rfl
          · exact Or.inr rfl
      · refine Or.inl ?_
        simp only [enrichWithCategories]
        rw [if_pos g1, if_neg g2]
    · refine Or.inl ?_
      simp only [enrichWithCategories]
      rw [if_neg g1]

/-- The service step either leaves the frame unchanged or is a pure
columnwise extension by the joined service columns, under the analogous
hypotheses. -/
theorem enrichSvc_shape (df : Df) (svcs : Option Df)
    (hsvcs : ∀ sdf, svcs = some sdf → sdf.Wf ∧ OneRowPerKey sdf "service_id")
    (hd3 : ¬ "service_name" ∈ df.cols) (hd4 : ¬ "criticality" ∈ df.cols) :
    enrichWithServices df svcs = df ∨
      ∃ sdf, svcs = some sdf ∧
        enrichWithServices df svcs =
          extendDf df (rightDataOf (svcRight sdf) "service_id")
            (refExtra (svcRight sdf) "service_id") ∧
        (∀ c ∈ rightDataOf (svcRight sdf) "service_id",
          c = "service_name" ∨ c = "criticality") := by
  cases svcs with
  | none => exact Or.inl rfl
  | some sdf =>
    by_cases g1 : "service_id" ∈ df.cols ∧ "service_id" ∈ sdf.cols
    · by_cases g2 : (svcColsSel sdf).all (fun c => sdf.cols.contains c) = true
      · obtain ⟨hswf, huniq⟩ := hsvcs sdf rfl
        refine Or.inr ⟨sdf, rfl, ?_, ?_⟩
        · simp only [enrichWithServices]
          rw [if_pos g1, if_pos g2]
          apply mergeLeft_extend
          · intro c hc hne
            rcases mem_svcRight_cols sdf c hc with rfl | rfl | rfl
            · exact absurd rfl hne
            · exact hd3
            · exact hd4
          · rw [svcRight]
            exact uniq_rightTable sdf (svcColsSel sdf) "name" "service_name"
              "service_id" (svcKey_mem sdf) (by decide) (by decide) hswf g1.2 huniq
        · intro c hc
          rw [rightDataOf] at hc
          have hc1 := (List.mem_filter.mp hc).1
          have hc2 : ¬ c = "service_id" := by
            simpa using (List.mem_filter.mp hc).2
          rcases mem_svcRight_cols sdf c hc1 with rfl | rfl | rfl
          · exact absurd rfl hc2
          · exact Or.inl rfl
          · exact Or.inr rfl
      · refine Or.inl ?_
        simp only [enrichWithServices]
        rw [if_pos g1, if_neg g2]
    · refine Or.inl ?_
      simp only [enrichWithServices]
      rw [if_neg g1]

/-- C7, counterexample.  Enrichment is not idempotent as claimed: with a
categories table carrying a duplicated `category_id` key, the left join
fans each incident row out once per matching reference row, so rerunning
the enrichment on its own output (added columns dropped) duplicates the
fan-out and the `category_name` column of the second run differs from the
first run's. -/
theorem enrich_idem_counterexample :
    ¬ getCol dupTwice "category_name" = getCol dupOnce "category_name" := by
  decide

/-- C7, amended.  For a well-formed incidents table that does not already
carry the derived columns (`category_name`, `path`, `service_name`,
`criticality`), and reference tables that are well formed with at most one
row per key, the enrichment of `_clean_incidents_data` is idempotent:
rerunning it on its own output with the added columns dropped reproduces
that output exactly. -/
theorem enrich_idem (df : Df) (cats svcs : Option Df) (hwf : df.Wf)
    (hcats : ∀ cdf, cats = some cdf → cdf.Wf ∧ OneRowPerKey cdf "category_id")
    (hsvcs : ∀ sdf, svcs = some sdf → sdf.Wf ∧ OneRowPerKey sdf "service_id")
    (hd1 : ¬ "category_name" ∈ df.cols) (hd2 : ¬ "path" ∈ df.cols)
    (hd3 : ¬ "service_name" ∈ df.cols) (hd4 : ¬ "criticality" ∈ df.cols) :
    enrichIncidents
        (dropCols (enrichIncidents df cats svcs)
          (addedCols df (enrichIncidents df cats svcs))) cats svcs =
      enrichIncidents df cats svcs := by
  suffices hrec : dropCols (enrichIncidents df cats svcs)
      (addedCols df (enrichIncidents df cats svcs)) = df by
    rw [hrec]
  rcases enrichCat_shape df cats hcats hd1 hd2 with h1 | ⟨cdf, hceq, heq1, hb1⟩
  · rw [enrichIncidents, h1]
    rcases enrichSvc_shape df svcs hsvcs hd3 hd4 with h2 | ⟨sdf, hseq, heq2, hb2⟩
    · rw [h2, addedCols_self, dropCols_nil]
    · rw [heq2]
      exact dropCols_extend df _ _ hwf
        (fun c hc => by
          rcases hb2 c hc with rfl | rfl
          · exact hd3
          · exact hd4)
        (fun r _ => keys_refExtra _ _ _)
  · rw [enrichIncidents, heq1]
    have hd3' : ¬ "service_name" ∈
        (extendDf df (rightDataOf (catRight cdf) "category_id")
          (refExtra (catRight cdf) "category_id")).cols := by
      intro hcon
      rw [cols_extendDf] at hcon
      rcases List.mem_append.mp hcon with h | h
      · exact hd3 h
      · rcases hb1 _ h with h' | h' <;> exact absurd h' (by decide)
    have hd4' : ¬ "criticality" ∈
        (extendDf df (rightDataOf (catRight cdf) "category_id")
          (refExtra (catRight cdf) "category_id")).cols := by
      intro hcon
      rw [cols_extendDf] at hcon
      rcases List.mem_append.mp hcon with h | h
      · exact hd4 h
      · rcases hb1 _ h with h' | h' <;> exact absurd h' (by decide)
    rcases enrichSvc_shape _ svcs hsvcs hd3' hd4' with h2 | ⟨sdf, hseq, heq2, hb2⟩
    · rw [h2]
      exact dropCols_extend df _ _ hwf
        (fun c hc => by
          rcases hb1 c hc with rfl | rfl
          · exact hd1
          · exact hd2)
        (fun r _ => keys_refExtra _ _ _)
    · rw [heq2, extendDf_extendDf]
      exact dropCols_extend df _ _ hwf
        (fun c hc => by
          rcases List.mem_append.mp hc with h | h
          · rcases hb1 c h with rfl | rfl
            · exact hd1
            · exact hd2
          · rcases hb2 c h with rfl | rfl
            · exact hd3
            · exact hd4)
        (fun r _ => by rw [List.map_append, keys_refExtra, keys_refExtra])

/-- Witness for C7 at a concrete one-incident table with single-row
category and service reference tables. -/
theorem enrich_idem_witness :
    enrichIncidents
        (dropCols (enrichIncidents cxIncidents (some cxCategories) (some cxServices))
          (addedCols cxIncidents
            (enrichIncidents cxIncidents (some cxCategories) (some cxServices))))
        (some cxCategories) (some cxServices) =
      enrichIncidents cxIncidents (some cxCategories) (some cxServices) :=
  enrich_idem cxIncidents (some cxCategories) (some cxServices)
    (by
      intro r hr
      rcases List.mem_singleton.mp hr with rfl
      rfl)
    (fun cdf h => by
      injection h with h2
      subst h2
      refine ⟨?_, ?_⟩
      · intro r hr
        rcases List.mem_singleton.mp hr with rfl
        rfl
      · intro v
        exact Nat.le_trans (List.length_filter_le _ _) (by decide))
    (fun sdf h => by
      injection h with h2
      subst h2
      refine ⟨?_, ?_⟩
      · intro r hr
        rcases List.mem_singleton.mp hr with rfl
        rfl
      · intro v
        exact Nat.le_trans (List.length_filter_le _ _) (by decide))
    (by decide) (by decide) (by decide) (by decide)

/-- C4, counterexample.  When the incidents table already carries a
`category_name` column, the left join renames the colliding columns with
the pandas `_x`/`_y` suffixes, so the enriched frame has no
`category_name` column at all: the unmatched row neither keeps its
original `category_name` value under that name nor gains a
missing-value-marked derived column of that name. -/
theorem enrich_total_counterexample :
    ¬ "category_name" ∈
      (enrichIncidents clashIncidents (some cxCategories) none).cols := by
  decide

/-- C4, amended.  For a well-formed incidents table that does not already
carry the derived columns, and well-formed one-row-per-key reference
tables, enrichment never drops a primary row: a row whose foreign-key
values match no reference key reappears extended by exactly the added
enrichment columns, keeps every original column value unchanged, and all
added cells hold the missing-value marker. -/
theorem enrich_left_join_total (df : Df) (cats svcs : Option Df) (r : Row)
    (hwf : df.Wf) (hr : r ∈ df.rows)
    (hcats : ∀ cdf, cats = some cdf → cdf.Wf ∧ OneRowPerKey cdf "category_id")
    (hsvcs : ∀ sdf, svcs = some sdf → sdf.Wf ∧ OneRowPerKey sdf "service_id")
    (hd1 : ¬ "category_name" ∈ df.cols) (hd2 : ¬ "path" ∈ df.cols)
    (hd3 : ¬ "service_name" ∈ df.cols) (hd4 : ¬ "criticality" ∈ df.cols)
    (hncc : ∀ cdf, cats = some cdf → ∀ rr ∈ cdf.rows,
      ¬ (rowGet rr "category_id").getD Cell.na = (rowGet r "category_id").getD Cell.na)
    (hncs : ∀ sdf, svcs = some sdf → ∀ rr ∈ sdf.rows,
      ¬ (rowGet rr "service_id").getD Cell.na = (rowGet r "service_id").getD Cell.na) :
    ∃ ext, r ++ ext ∈ (enrichIncidents df cats svcs).rows ∧
      ext.map Prod.fst = addedCols df (enrichIncidents df cats svcs) ∧
      (∀ c ∈ df.cols, rowGet (r ++ ext) c = rowGet r c) ∧
      (∀ p ∈ ext, p.2 = Cell.na) := by
  have hpres : ∀ ext : Row, ∀ c ∈ df.cols, rowGet (r ++ ext) c = rowGet r c := by
    intro ext c hc
    apply rowGet_append_left
    rw [hwf r hr]
    exact hc
  rcases enrichCat_shape df cats hcats hd1 hd2 with h1 | ⟨cdf, hceq, heq1, hb1⟩
  · rcases enrichSvc_shape df svcs hsvcs hd3 hd4 with h2 | ⟨sdf, hseq, heq2, hb2⟩
    · refine ⟨[], ?_, ?_, hpres [], ?_⟩
      · rw [enrichIncidents, h1, h2, List.append_nil]
        exact hr
      · rw [enrichIncidents, h1, h2, addedCols_self]
        rfl
      · intro p hp
        cases hp
    · refine ⟨refExtra (svcRight sdf) "service_id" r, ?_, ?_, hpres _, ?_⟩
      · rw [enrichIncidents, h1, heq2]
        exact mem_extendDf_rows df _ _ r hr
      · rw [enrichIncidents, h1, heq2,
          addedCols_extend df (rightDataOf (svcRight sdf) "service_id")
            (refExtra (svcRight sdf) "service_id")
            (fun c hc => by
              rcases hb2 c hc with rfl | rfl
              · exact hd3
              · exact hd4)]
        exact keys_refExtra _ _ _
      · apply refExtra_nomatch
        rw [svcRight]
        exact rightTable_filter_nil sdf (svcColsSel sdf) "name" "service_name"
          "service_id" (svcKey_mem sdf) (by decide) (by decide) r (hncs sdf hseq)
  · have hd3' : ¬ "service_name" ∈
        (extendDf df (rightDataOf (catRight cdf) "category_id")
          (refExtra (catRight cdf) "category_id")).cols := by
      intro hcon
      rw [cols_extendDf] at hcon
      rcases List.mem_append.mp hcon with h | h
      · exact hd3 h
      · rcases hb1 _ h with h' | h' <;> exact absurd h' (by decide)
    have hd4' : ¬ "criticality" ∈
        (extendDf df (rightDataOf (catRight cdf) "category_id")
          (refExtra (catRight cdf) "category_id")).cols := by
      intro hcon
      rw [cols_extendDf] at hcon
      rcases List.mem_append.mp hcon with h | h
      · exact hd4 h
      · rcases hb1 _ h with h' | h' <;> exact absurd h' (by decide)
    have hcatnil : (catRight cdf).rows.filter
        (fun rrow => rowGet rrow "category_id" = rowGet r "category_id") = [] := by
      rw [catRight]
      exact rightTable_filter_nil cdf (catColsSel cdf) "name" "category_name"
        "category_id" (catKey_mem cdf) (by decide) (by decide) r (hncc cdf hceq)
    rcases enrichSvc_shape _ svcs hsvcs hd3' hd4' with h2 | ⟨sdf, hseq, heq2, hb2⟩
    · refine ⟨refExtra (catRight cdf) "category_id" r, ?_, ?_, hpres _, ?_⟩
      · rw [enrichIncidents, heq1, h2]
        exact mem_extendDf_rows df _ _ r hr
      · rw [enrichIncidents, heq1, h2,
          addedCols_extend df (rightDataOf (catRight cdf) "category_id")
            (refExtra (catRight cdf) "category_id")
            (fun c hc => by
              rcases hb1 c hc with rfl | rfl
              · exact hd1
              · exact hd2)]
        exact keys_refExtra _ _ _
      · exact refExtra_nomatch _ _ _ hcatnil
    · have hsame : rowGet (r ++ refExtra (catRight cdf) "category_id" r)
          "service_id" = rowGet r "service_id" := by
        by_cases hmem : "service_id" ∈ r.map Prod.fst
        · exact rowGet_append_left r _ _ hmem
        · have h0 := rowGet_eq_none_of_not_mem_keys r _ hmem
          rw [rowGet_append_of_none r _ _ h0, h0]
          apply rowGet_eq_none_of_not_mem_keys
          rw [keys_refExtra]
          intro hcon
          rcases hb1 _ hcon with h' | h' <;> exact absurd h' (by decide)
      have hsvcnil : (svcRight sdf).rows.filter
          (fun rrow => rowGet rrow "service_id" =
            rowGet (r ++ refExtra (catRight cdf) "category_id" r) "service_id") = [] := by
        rw [svcRight]
        apply rightTable_filter_nil sdf (svcColsSel sdf) "name" "service_name"
          "service_id" (svcKey_mem sdf) (by decide) (by decide)
        intro rr hrr
        rw [hsame]
        exact hncs sdf hseq rr hrr
      refine ⟨refExtra (catRight cdf) "category_id" r ++
          refExtra (svcRight sdf) "service_id"
            (r ++ refExtra (catRight cdf) "category_id" r), ?_, ?_, hpres _, ?_⟩
      · rw [enrichIncidents, heq1, heq2, extendDf_extendDf]
        exact mem_extendDf_rows df _ _ r hr
      · rw [enrichIncidents, heq1, heq2, extendDf_extendDf,
          addedCols_extend df
            (rightDataOf (catRight cdf) "category_id" ++
              rightDataOf (svcRight sdf) "service_id")
            (fun x => refExtra (catRight cdf) "category_id" x ++
              refExtra (svcRight sdf) "service_id"
                (x ++ refExtra (catRight cdf) "category_id" x))
            (fun c hc => by
              rcases List.mem_append.mp hc with h | h
              · rcases hb1 c h with rfl | rfl
                · exact hd1
                · exact hd2
              · rcases hb2 c h with rfl | rfl
                · exact hd3
                · exact hd4)]
        rw [List.map_append, keys_refExtra, keys_refExtra]
      · intro p hp
        rcases List.mem_append.mp hp with h | h
        · exact refExtra_nomatch _ _ _ hcatnil p h
        · exact refExtra_nomatch _ _ _ hsvcnil p h

/-- Witness for C4: the incident row keyed `C9`/`SVC9` has no match in the
single-row reference tables keyed `C1`/`SVC1`; it survives enrichment with
its original values and missing-value-marked added columns. -/
theorem enrich_left_join_total_witness :
    ∃ ext,
      [("incident_id", Cell.val "I1"), ("category_id", Cell.val "C9"),
          ("service_id", Cell.val "SVC9")] ++ ext ∈
        (enrichIncidents cxIncidents (some cxCategories) (some cxServices)).rows ∧
      ext.map Prod.fst =
        addedCols cxIncidents
          (enrichIncidents cxIncidents (some cxCategories) (some cxServices)) ∧
      (∀ c ∈ cxIncidents.cols,
        rowGet ([("incident_id", Cell.val "I1"), ("category_id", Cell.val "C9"),
            ("service_id", Cell.val "SVC9")] ++ ext) c =
          rowGet [("incident_id", Cell.val "I1"), ("category_id", Cell.val "C9"),
            ("service_id", Cell.val "SVC9")] c) ∧
      (∀ p ∈ ext, p.2 = Cell.na) :=
  enrich_left_join_total cxIncidents (some cxCategories) (some cxServices)
    [("incident_id", Cell.val "I1"), ("category_id", Cell.val "C9"),
      ("service_id", Cell.val "SVC9")]
    (by
      intro r hr
      rcases List.mem_singleton.mp hr with rfl
      rfl)
    (by decide)
    (fun cdf h => by
      injection h with h2
      subst h2
      refine ⟨?_, ?_⟩
      · intro r hr
        rcases List.mem_singleton.mp hr with rfl
        rfl
      · intro v
        exact Nat.le_trans (List.length_filter_le _ _) (by decide))
    (fun sdf h => by
      injection h with h2
      subst h2
      refine ⟨?_, ?_⟩
      · intro r hr
        rcases List.mem_singleton.mp hr with rfl
        rfl
      · intro v
        exact Nat.le_trans (List.length_filter_le _ _) (by decide))
    (by decide) (by decide) (by decide) (by decide)
    (fun cdf h => by
      injection h with h2
      subst h2
      decide)
    (fun sdf h => by
      injection h with h2
      subst h2
      decide)

/-- Witness for C9 at a concrete three-incident collection with limit 1:
only the open, unassigned incident remains. -/
theorem getWorkload_spec_witness :
    (getWorkload
      [[("incident_id", Cell.val "I1"), ("status", Cell.val "Open"), ("assigned_to", Cell.val "")],
       [("incident_id", Cell.val "I2"), ("status", Cell.val "Resolved"), ("assigned_to", Cell.val "")],
       [("incident_id", Cell.val "I3"), ("status", Cell.val "Open"), ("assigned_to", Cell.val "AGT001")]]
      (some 1)).rows =
      limTake (some 1)
        ((wlFrame
          [[("incident_id", Cell.val "I1"), ("status", Cell.val "Open"), ("assigned_to", Cell.val "")],
           [("incident_id", Cell.val "I2"), ("status", Cell.val "Resolved"), ("assigned_to", Cell.val "")],
           [("incident_id", Cell.val "I3"), ("status", Cell.val "Open"), ("assigned_to", Cell.val "AGT001")]]).rows.filter
          fun r => statusUnresolved r && assignedEmpty r) :=
  (getWorkload_spec _ (some 1) (by decide)).2

end Itsm
